import Mathlib

/-!
Verification development for the ModifyAllKindSpec test-fixture generator.

The Python sources are shallowly embedded below:
* `src/Python_Test_Tool/Replit/test_generator.py` — the unified field-mutation
  engine and fixture generator (`navigate_and_modify`, `process_json_field_removal`,
  `process_xml_field_removal`, `process_edi_field_removal`,
  `process_edifact_field_removal`, `process_idoc_field_removal`,
  `find_fields_by_occurrence`, `generate_test_files`);
* `src/Python_Test_Tool/Generating_MISS-RE_Tests/Required.py` — the legacy
  required-field generator (`find_and_modify_keys`, `modify_json_and_generate_files`);
* `src/Python_Test_Tool/SPEC_TO_JSON/extractor4.py` and `extractor2.py` — the
  specification extractors (`HierarchyBuilder.add_element`,
  `extract_universal_hierarchy`, `extract_json_hierarchy`).

Python strings are modelled by Lean `String`, with the handful of Python string
builtins re-implemented over `String.data` so that every definition evaluates by
kernel reduction.  JSON documents (`json.load` results) are modelled by the
inductive `JValue`; Python `dict`s become insertion-ordered association lists
with first-occurrence lookup, which is faithful because Python dict keys are
unique and preserve insertion order.  In-place mutation is modelled by returning
the updated structure; an uncaught Python exception is modelled by `Option.none`.
-/

/-! ## Python string primitives -/

/-- The characters stripped by Python `str.strip()`. -/
def isPySpace (c : Char) : Bool :=
  c = ' ' || c = '\t' || c = '\n' || c = '\r' || c = Char.ofNat 11 || c = Char.ofNat 12

/-- Python `str.strip()` (no argument): drop whitespace from both ends. -/
def pyStrip (s : String) : String :=
  String.mk (((s.data.dropWhile isPySpace).reverse.dropWhile isPySpace).reverse)

/-- Python `str.strip(c)` for a single stripped character. -/
def pyStripChar (c : Char) (s : String) : String :=
  String.mk (((s.data.dropWhile (· = c)).reverse.dropWhile (· = c)).reverse)

/-- Python `c in s` for a single character. -/
def containsChar (s : String) (c : Char) : Bool :=
  s.data.contains c

/-- Auxiliary for `containsStr`: substring test on character lists. -/
def listContainsSub (needle : List Char) : List Char → Bool
  | [] => needle.isPrefixOf []
  | c :: cs => needle.isPrefixOf (c :: cs) || listContainsSub needle cs

/-- Python `needle in hay` for strings (substring containment). -/
def containsStr (hay needle : String) : Bool :=
  listContainsSub needle.data hay.data

/-- Python `a.startswith(b)`. -/
def startsWithStr (a b : String) : Bool :=
  b.data.isPrefixOf a.data

/-- Python `s[:n]` for nonnegative `n`. -/
def pyTake (s : String) (n : Nat) : String :=
  String.mk (s.data.take n)

/-- Python `s[n:]` for nonnegative `n`. -/
def pyDrop (s : String) (n : Nat) : String :=
  String.mk (s.data.drop n)

/-- Python `str.lower()` (ASCII). -/
def pyLower (s : String) : String :=
  String.mk (s.data.map Char.toLower)

/-- Python `str.isdigit()` restricted to ASCII digits. -/
def pyIsDigit (s : String) : Bool :=
  s ≠ "" && s.data.all Char.isDigit

/-- Digits-to-number helper for `pyInt`. -/
def digitsToNat : List Char → Nat → Nat
  | [], acc => acc
  | c :: cs, acc => digitsToNat cs (acc * 10 + (c.toNat - '0'.toNat))

/-- Python `int(s)`: optional surrounding whitespace, optional sign, then a
nonempty digit string; `none` models the `ValueError`.  (Digit-group
underscores, accepted by CPython, are not modelled; no input in this
development contains them.) -/
def pyInt (s : String) : Option Int :=
  let t := (pyStrip s).data
  match t with
  | [] => none
  | c :: cs =>
    if c = '-' then
      if cs ≠ [] && cs.all Char.isDigit then some (-(digitsToNat cs 0 : Int)) else none
    else if c = '+' then
      if cs ≠ [] && cs.all Char.isDigit then some ((digitsToNat cs 0 : Int)) else none
    else
      if (c :: cs).all Char.isDigit then some ((digitsToNat (c :: cs) 0 : Int)) else none

/-- Python list indexing `xs[i]` (negative indices count from the end);
`none` models the `IndexError`. -/
def pyIdx {α : Type} (xs : List α) (i : Int) : Option α :=
  let j : Int := if i < 0 then i + xs.length else i
  if 0 ≤ j ∧ j < xs.length then xs[j.toNat]? else none

/-- Python list item assignment `xs[i] = v`; `none` models the `IndexError`. -/
def pySetIdx {α : Type} (xs : List α) (i : Int) (v : α) : Option (List α) :=
  let j : Int := if i < 0 then i + xs.length else i
  if 0 ≤ j ∧ j < xs.length then some (xs.set j.toNat v) else none

/-- Python `xs.pop(i)`; `none` models the `IndexError`. -/
def pyPopIdx {α : Type} (xs : List α) (i : Int) : Option (List α) :=
  let j : Int := if i < 0 then i + xs.length else i
  if 0 ≤ j ∧ j < xs.length then some (xs.eraseIdx j.toNat) else none

/-- Auxiliary for `splitChar`: split a character list at every occurrence of
`c`, keeping empty pieces, exactly like Python `s.split(c)`. -/
def splitCharAux (c : Char) : List Char → List (List Char)
  | [] => [[]]
  | x :: xs =>
    match splitCharAux c xs with
    | [] => [[]]
    | r :: rs => if x = c then [] :: r :: rs else (x :: r) :: rs

/-- Python `s.split(c)` for a one-character separator. -/
def splitChar (c : Char) (s : String) : List String :=
  (splitCharAux c s.data).map String.mk

/-- Python `c.join(parts)` for a one-character separator. -/
def joinChar (c : Char) : List String → String
  | [] => ""
  | [x] => x
  | x :: y :: xs => x ++ String.singleton c ++ joinChar c (y :: xs)

/-- Auxiliary for `replaceSub`: Python `str.replace`, left to right,
non-overlapping.  (After a match of the nonempty pattern `pat` the scan resumes
past it: `(x :: xs).drop pat.length = xs.drop (pat.length - 1)`.) -/
def replaceSubAux (pat rep : List Char) : List Char → List Char
  | [] => []
  | x :: xs =>
    if pat ≠ [] ∧ pat.isPrefixOf (x :: xs) then
      rep ++ replaceSubAux pat rep (xs.drop (pat.length - 1))
    else
      x :: replaceSubAux pat rep xs
termination_by l => l.length
decreasing_by
  · simp only [List.length_drop, List.length_cons]
    omega
  · simp

/-- Python `s.replace(pat, rep)` for a nonempty pattern. -/
def replaceSub (s pat rep : String) : String :=
  String.mk (replaceSubAux pat.data rep.data s.data)

/-- Zero-padded three-digit index, Python `f"{i:03d}"` for `i < 1000`. -/
def pad3 (i : Nat) : String :=
  if i < 10 then "00" ++ toString i
  else if i < 100 then "0" ++ toString i
  else toString i

/-! ## JSON documents -/

/-- A parsed JSON document (the result of Python `json.load`). -/
inductive JValue where
  | null : JValue
  | bool : Bool → JValue
  | num : Int → JValue
  | str : String → JValue
  | arr : List JValue → JValue
  | obj : List (String × JValue) → JValue

mutual
/-- Node count of a JSON value, used as the recursion-depth budget of the
fuel-indexed mutators below: every recursive step of the mutators moves to a
value of strictly smaller `jsize`. -/
def jsize : JValue → Nat
  | .null => 1
  | .bool _ => 1
  | .num _ => 1
  | .str _ => 1
  | .arr xs => 1 + jsizeList xs
  | .obj kvs => 1 + jsizeKvs kvs

/-- Node count of a JSON array's elements. -/
def jsizeList : List JValue → Nat
  | [] => 0
  | x :: xs => 1 + jsize x + jsizeList xs

/-- Node count of a JSON object's entries. -/
def jsizeKvs : List (String × JValue) → Nat
  | [] => 0
  | (_, v) :: kvs => 1 + jsize v + jsizeKvs kvs
end

/-- First-occurrence lookup in an association list (Python `d[k]` / `d.get(k)`). -/
def dictGet? {α : Type} : List (String × α) → String → Option α
  | [], _ => none
  | (k, v) :: kvs, key => if k = key then some v else dictGet? kvs key

/-- Python `k in d`. -/
def dictMem {α : Type} (kvs : List (String × α)) (key : String) : Bool :=
  (dictGet? kvs key).isSome

/-- Python `d[k] = v`: replace the value at the first occurrence of `k`,
keeping its position, or append a fresh entry at the end. -/
def dictSet {α : Type} : List (String × α) → String → α → List (String × α)
  | [], key, v => [(key, v)]
  | (k, w) :: kvs, key, v =>
    if k = key then (k, v) :: kvs else (k, w) :: dictSet kvs key v

/-- Python `del d[k]` / the removal part of `d.pop(k)`: drop the first
occurrence of `k`, keeping the order of the other entries. -/
def dictDel {α : Type} : List (String × α) → String → List (String × α)
  | [], _ => []
  | (k, w) :: kvs, key => if k = key then kvs else (k, w) :: dictDel kvs key

/-- Python truthiness of a parsed JSON value (`if x:`). -/
def jTruthy : JValue → Bool
  | .null => false
  | .bool b => b
  | .num n => n != 0
  | .str s => s != ""
  | .arr xs => !xs.isEmpty
  | .obj kvs => !kvs.isEmpty

mutual
/-- Python `repr` of a parsed JSON value (string quoting is idealised to
plain single quotes; no value in this development needs escaping). -/
def pyRepr : JValue → String
  | .null => "None"
  | .bool b => if b then "True" else "False"
  | .num n => toString n
  | .str s => "'" ++ s ++ "'"
  | .arr xs => "[" ++ pyReprSeq xs ++ "]"
  | .obj kvs => "\x7b" ++ pyReprMap kvs ++ "\x7d"

/-- Comma-joined `repr`s of the items of a list. -/
def pyReprSeq : List JValue → String
  | [] => ""
  | [x] => pyRepr x
  | x :: y :: xs => pyRepr x ++ ", " ++ pyReprSeq (y :: xs)

/-- Comma-joined `repr`s of the entries of a dict. -/
def pyReprMap : List (String × JValue) → String
  | [] => ""
  | [(k, v)] => "'" ++ k ++ "': " ++ pyRepr v
  | (k, v) :: e :: kvs => "'" ++ k ++ "': " ++ pyRepr v ++ ", " ++ pyReprMap (e :: kvs)
end

/-- Python `str()` of a parsed JSON value (as used inside an f-string):
a string renders as its own content, containers by their `repr`. -/
def pyStrJ : JValue → String
  | .str s => s
  | v => pyRepr v

/-- `json.loads(json.dumps(v))` on a value that came from `json.load`
round-trips to an equal value; on the pure model the deep copy is the
identity. -/
def deepCopy (v : JValue) : JValue := v

/-! ## Size lemmas used for termination -/

theorem sizeOf_of_getQ {α : Type} [SizeOf α] :
    ∀ (xs : List α) (j : Nat) (v : α), xs[j]? = some v → sizeOf v < sizeOf xs := by
  intro xs
  induction xs with
  | nil => intro j v h; simp at h
  | cons x xs ih =>
    intro j v h
    cases j with
    | zero => simp at h; subst h; simp; omega
    | succ n =>
      simp at h
      have := ih n v h
      simp
      omega

theorem sizeOf_of_dictGet {α : Type} [SizeOf α] :
    ∀ (kvs : List (String × α)) (k : String) (v : α),
      dictGet? kvs k = some v → sizeOf v < sizeOf kvs := by
  intro kvs
  induction kvs with
  | nil => intro k v h; simp [dictGet?] at h
  | cons p ps ih =>
    intro k v h
    obtain ⟨k0, v0⟩ := p
    by_cases hk : k0 = k
    · simp [dictGet?, hk] at h
      subst h
      simp
      omega
    · simp [dictGet?, hk] at h
      have := ih k v h
      simp
      omega

theorem sizeOf_of_pyIdx {α : Type} [SizeOf α] (xs : List α) (i : Int) (v : α) :
    pyIdx xs i = some v → sizeOf v < sizeOf xs := by
  intro h
  have h2 : (if 0 ≤ (if i < 0 then i + (xs.length : Int) else i) ∧
      (if i < 0 then i + (xs.length : Int) else i) < (xs.length : Int) then
      xs[(if i < 0 then i + (xs.length : Int) else i).toNat]? else none) = some v := h
  by_cases hi : i < 0 <;>
    simp only [hi, if_true, if_false] at h2 <;>
    split at h2 <;>
    first
      | exact sizeOf_of_getQ _ _ _ h2
      | simp at h2

/-! ## Tree-of-maps strategy (`test_generator.py`, `navigate_and_modify`) -/

/-- `current_key.split('[')[0]` — the mapping key in front of an array index. -/
def bracketKeyOf (ck : String) : String := (splitChar '[' ck).headD ""

/-- `int(current_key.split('[')[1].split(']')[0])`; `none` models the caught
`ValueError`/`IndexError` (a missing `[1]` piece yields the empty string,
whose `int` parse fails, matching the caught `IndexError`). -/
def parseIdxPart (ck : String) : Option Int :=
  pyInt ((splitChar ']' ((splitChar '[' ck).getD 1 "")).headD "")

mutual
/-- `navigate_and_modify` from `process_json_field_removal`
(test_generator.py lines 81-130), indexed by a recursion-depth budget.  Python
mutates `obj` in place and returns a bool; here the (possibly) updated value
is returned together with that bool.  `none` models an uncaught `IndexError`
from a Python-negative index.  Every recursive call strictly decreases the
`sizeOf` of the visited value, so the fuel-0 case is unreachable from the
wrapper `navAM` below (see `navAMF_stable`).  Note the faithful quirks: an
unknown `modification_mode` modifies nothing but still returns `True`; the
list fallback applies only to non-bracketed segments; a mutation at an array
index in `comment` mode stores `"commented-" ++ pyStrJ original`. -/
def navAMF : Nat → JValue → List String → String → Option (JValue × Bool)
  | 0, _, _, _ => none
  | _ + 1, obj, [], _ => some (obj, false)
  | fuel + 1, obj, ck :: rest, mode =>
    if containsChar ck '[' && containsChar ck ']' then
      navBracketF fuel obj ck rest mode
    else
      navPlainF fuel obj ck rest mode

/-- The `'[' in current_key and ']' in current_key` branch of
`navigate_and_modify` (lines 89-108): array-index addressing. -/
def navBracketF (fuel : Nat) (obj : JValue) (ck : String) (rest : List String)
    (mode : String) : Option (JValue × Bool) :=
  match parseIdxPart ck with
  | none => some (obj, false)
  | some index =>
    match obj with
    | .obj kvs =>
      match dictGet? kvs (bracketKeyOf ck) with
      | some (.arr xs) =>
        if index < (xs.length : Int) then
          match rest with
          | [] =>
            if mode = "remove" then
              match pyPopIdx xs index with
              | none => none
              | some xs2 =>
                some (.obj (dictSet kvs (bracketKeyOf ck) (.arr xs2)), true)
            else if mode = "comment" then
              match pyIdx xs index with
              | none => none
              | some v =>
                match pySetIdx xs index (.str ("commented-" ++ pyStrJ v)) with
                | none => none
                | some xs2 =>
                  some (.obj (dictSet kvs (bracketKeyOf ck) (.arr xs2)), true)
            else some (.obj kvs, true)
          | r :: rs =>
            match pyIdx xs index with
            | none => none
            | some v =>
              match navAMF fuel v (r :: rs) mode with
              | none => none
              | some (v2, b) =>
                match pySetIdx xs index v2 with
                | none => none
                | some xs2 =>
                  some (.obj (dictSet kvs (bracketKeyOf ck) (.arr xs2)), b)
        else some (.obj kvs, false)
      | _ => some (.obj kvs, false)
    | _ => some (obj, false)

/-- The plain-segment branch of `navigate_and_modify` (lines 109-128):
mapping-key addressing with the list fallback. -/
def navPlainF (fuel : Nat) (obj : JValue) (ck : String) (rest : List String)
    (mode : String) : Option (JValue × Bool) :=
  match obj with
  | .obj kvs =>
    match rest with
    | [] =>
      match dictGet? kvs ck with
      | some v =>
        if mode = "remove" then some (.obj (dictDel kvs ck), true)
        else if mode = "comment" then
          some (.obj (dictSet (dictDel kvs ck) ("commented-" ++ ck) v), true)
        else some (.obj kvs, true)
      | none => some (.obj kvs, false)
    | r :: rs =>
      match dictGet? kvs ck with
      | some v =>
        match navAMF fuel v (r :: rs) mode with
        | none => none
        | some (v2, b) => some (.obj (dictSet kvs ck v2), b)
      | none => some (.obj kvs, false)
  | .arr items =>
    match navItemsF fuel items (ck :: rest) mode with
    | none => none
    | some (items2, b) => some (.arr items2, b)
  | _ => some (obj, false)

/-- The Python `for item in obj:` fallback of `navigate_and_modify`: try each
list item in turn with the full remaining path; the first successful item is
replaced, later items are left untouched. -/
def navItemsF : Nat → List JValue → List String → String → Option (List JValue × Bool)
  | 0, _, _, _ => none
  | _ + 1, [], _, _ => some ([], false)
  | fuel + 1, it :: its, parts, mode =>
    match navAMF fuel it parts mode with
    | none => none
    | some (it2, b) =>
      if b then some (it2 :: its, true)
      else
        match navItemsF fuel its parts mode with
        | none => none
        | some (its2, b2) => some (it :: its2, b2)
end

/-- `navigate_and_modify` with a sufficient depth budget: every recursive call
strictly decreases the `sizeOf` of the value being visited, so `jsize obj + 1`
bounds the recursion depth and the fuel-0 case is unreachable. -/
def navAM (obj : JValue) (parts : List String) (mode : String) :
    Option (JValue × Bool) :=
  navAMF (jsize obj + 1) obj parts mode

/-- The list fallback with a sufficient depth budget. -/
def navItems (items : List JValue) (parts : List String) (mode : String) :
    Option (List JValue × Bool) :=
  navItemsF (jsizeList items + 1) items parts mode

/-- `process_json_field_removal` (test_generator.py lines 76-142): path
clean-up then `navigate_and_modify`.  Python returns only the bool; the
(possibly) updated document is returned alongside it. -/
def process_json_field_removal (data : JValue) (field_path : String)
    (modification_mode : String) : Option (JValue × Bool) :=
  if field_path = "" || pyStrip field_path = "" then some (data, false)
  else
    let clean_path := pyStripChar '.' (replaceSub (pyStrip field_path) "/" ".")
    if clean_path = "" then some (data, false)
    else
      let path_parts := (splitChar '.' clean_path).filter (· ≠ "")
      navAM data path_parts modification_mode

/-! ## Legacy tree mutator (`Required.py`, `find_and_modify_keys`) -/

mutual
/-- `find_and_modify_keys` from Required.py lines 22-44, indexed by a
recursion-depth budget: depth-first search for the first occurrence of
`key_to_find`; at a dict that holds the key the entry is deleted (`remove`)
or renamed to `commented-<key>` via `pop` + assignment (`comment`); any other
mode modifies nothing but still reports `True`.  Every recursive call strictly
decreases the `jsize` of the visited value, so the fuel-0 fallback (which
returns the data unchanged) is unreachable from the wrapper
`find_and_modify_keys` below. -/
def fmkF : Nat → JValue → String → String → JValue × Bool
  | 0, data, _, _ => (data, false)
  | fuel + 1, data, key_to_find, mode =>
    match data with
    | .obj kvs =>
      if dictMem kvs key_to_find then
        if mode = "remove" then (.obj (dictDel kvs key_to_find), true)
        else if mode = "comment" then
          match dictGet? kvs key_to_find with
          | some v =>
            (.obj (dictSet (dictDel kvs key_to_find) ("commented-" ++ key_to_find) v), true)
          | none => (.obj kvs, true)
        else (.obj kvs, true)
      else
        match fmkEntriesF fuel kvs key_to_find mode with
        | (kvs2, b) => (.obj kvs2, b)
    | .arr xs =>
      match fmkItemsF fuel xs key_to_find mode with
      | (xs2, b) => (.arr xs2, b)
    | v => (v, false)

/-- The `for sub_key in data:` loop of `find_and_modify_keys`: recurse into
each value in order, stopping at the first success. -/
def fmkEntriesF : Nat → List (String × JValue) → String → String →
    List (String × JValue) × Bool
  | 0, kvs, _, _ => (kvs, false)
  | _ + 1, [], _, _ => ([], false)
  | fuel + 1, (k, v) :: rest, key, mode =>
    match fmkF fuel v key mode with
    | (v2, true) => ((k, v2) :: rest, true)
    | (_, false) =>
      match fmkEntriesF fuel rest key mode with
      | (rest2, b) => ((k, v) :: rest2, b)

/-- The `for item in data:` loop of `find_and_modify_keys`. -/
def fmkItemsF : Nat → List JValue → String → String → List JValue × Bool
  | 0, xs, _, _ => (xs, false)
  | _ + 1, [], _, _ => ([], false)
  | fuel + 1, x :: rest, key, mode =>
    match fmkF fuel x key mode with
    | (x2, true) => (x2 :: rest, true)
    | (_, false) =>
      match fmkItemsF fuel rest key mode with
      | (rest2, b) => (x :: rest2, b)
end

/-- `find_and_modify_keys` with a sufficient depth budget (`jsize data + 1`
bounds the recursion depth). -/
def find_and_modify_keys (data : JValue) (key_to_find : String) (mode : String) :
    JValue × Bool :=
  fmkF (jsize data + 1) data key_to_find mode

/-! ## EDI-X12 strategy (`process_edi_field_removal`) -/

/-- The field-part extraction shared by the EDI strategies (lines 195-197 /
254-256): drop the matched segment id from the field path and a leading dot if
present. -/
def fieldPartOf (field_path segment_id : String) : String :=
  let fp0 := pyDrop field_path segment_id.length
  if startsWithStr fp0 "." then pyDrop fp0 1 else fp0

/-- Number extraction inside the `try` of `process_edi_field_removal`
(lines 199-205): `element_num, subelement_num = field_part.split('.')` when the
part contains a dot (a split into anything but exactly two pieces raises the
unpacking `ValueError`), otherwise `int(field_part)` when all digits, else
`int(field_part[:2])`.  `none` models the caught `ValueError`. -/
def ediNums (field_part : String) : Option (Int × Option Int) :=
  if containsChar field_part '.' then
    match splitChar '.' field_part with
    | [a, b] =>
      match pyInt a, pyInt b with
      | some en, some sn => some (en, some sn)
      | _, _ => none
    | _ => none
  else
    match (if pyIsDigit field_part then pyInt field_part else pyInt (pyTake field_part 2)) with
    | some en => some (en, none)
    | none => none

/-- The element-modification block of `process_edi_field_removal`
(lines 208-224), entered after `len(elements) > element_num` holds; `none`
models an `IndexError` raised by a Python-negative position. -/
def ediApply (elements : List String) (en : Int) (sn? : Option Int)
    (mode : String) : Option (List String) :=
  match sn? with
  | some sn =>
    match pyIdx elements en with
    | none => none
    | some target =>
      let subelements := if containsChar target ':' then splitChar ':' target else [target]
      if sn - 1 < (subelements.length : Int) then
        match
          (match mode with
           | "remove" => pySetIdx subelements (sn - 1) ""
           | "comment" =>
             match pyIdx subelements (sn - 1) with
             | none => none
             | some old => pySetIdx subelements (sn - 1) ("commented-" ++ old)
           | _ => some subelements) with
        | none => none
        | some subs2 => pySetIdx elements en (joinChar ':' subs2)
      else some elements
  | none =>
    match mode with
    | "remove" => pySetIdx elements en ""
    | "comment" =>
      match pyIdx elements en with
      | none => none
      | some old => pySetIdx elements en ("commented-" ++ old)
    | _ => some elements

/-- One iteration of the line loop of `process_edi_field_removal`
(lines 182-229).  A blank line and a line without `~` pass through; on a
segment-id prefix match the numbered element is modified inside a `try`:
a parse failure or `IndexError` leaves the line as it was, every other path
reassigns `line = '*'.join(elements)`. -/
def ediLine (field_path mode line : String) : String :=
  if pyStrip line = "" then line
  else if containsChar line '~' then
    let elements := splitChar '*' line
    let segment_id := elements.headD ""
    if startsWithStr field_path segment_id then
      match ediNums (fieldPartOf field_path segment_id) with
      | none => line
      | some (en, sn?) =>
        if en < (elements.length : Int) then
          match ediApply elements en sn? mode with
          | none => line
          | some es2 => joinChar '*' es2
        else joinChar '*' elements
    else line
  else line

/-- `process_edi_field_removal` (test_generator.py lines 174-231). -/
def process_edi_field_removal (edi_content field_path mode : String) : String :=
  joinChar '\n' ((splitChar '\n' edi_content).map (ediLine field_path mode))

/-! ## EDIFACT strategy (`process_edifact_field_removal`) -/

/-- The apostrophe segment terminator of EDIFACT. -/
def apos : Char := Char.ofNat 39

/-- The element-modification block of `process_edifact_field_removal`
(lines 262-266), entered after `len(elements) > element_num`. -/
def edifactApply (elements : List String) (en : Int) (mode : String) :
    Option (List String) :=
  match mode with
  | "remove" => pySetIdx elements en ""
  | "comment" =>
    match pyIdx elements en with
    | none => none
    | some old => pySetIdx elements en ("commented-" ++ old)
  | _ => some elements

/-- One iteration of the line loop of `process_edifact_field_removal`
(lines 241-272): like the EDI-X12 loop with `+` as element separator and no
sub-element split. -/
def edifactLine (field_path mode line : String) : String :=
  if pyStrip line = "" then line
  else if containsChar line '+' then
    let elements := splitChar '+' line
    let segment_id := elements.headD ""
    if startsWithStr field_path segment_id then
      let field_part := fieldPartOf field_path segment_id
      match (if pyIsDigit field_part then pyInt field_part
             else pyInt (pyTake field_part 2)) with
      | none => line
      | some en =>
        if en < (elements.length : Int) then
          match edifactApply elements en mode with
          | none => line
          | some es2 => joinChar '+' es2
        else joinChar '+' elements
    else line
  else line

/-- `process_edifact_field_removal` (test_generator.py lines 233-274):
segments are separated by the apostrophe terminator. -/
def process_edifact_field_removal (edifact_content field_path mode : String) : String :=
  joinChar apos ((splitChar apos edifact_content).map (edifactLine field_path mode))

/-! ## IDOC strategy (`process_idoc_field_removal`) -/

/-- A character of the regex class `\w` (ASCII): letters, digits, underscore. -/
def isWordChar (c : Char) : Bool := c.isAlphanum || c = '_'

/-- `re.sub(r'(\w+)', lambda m: ' ' * len(m.group(1)), line)`: every maximal
run of word characters is replaced by an equal number of spaces, which acts
characterwise — each word character becomes a space, every other character is
kept. -/
def blankWordRuns (line : String) : String :=
  String.mk (line.data.map (fun c => if isWordChar c then ' ' else c))

/-- One iteration of the line loop of `process_idoc_field_removal`
(test_generator.py lines 284-298). -/
def idocLine (field_path mode line : String) : String :=
  if startsWithStr line "E1" || startsWithStr line "E2" then
    let segment_type := pyTake line 6
    if startsWithStr field_path segment_type then
      match mode with
      | "remove" => blankWordRuns line
      | "comment" => "* commented: " ++ line
      | _ => line
    else line
  else line

/-- `process_idoc_field_removal` (test_generator.py lines 276-300). -/
def process_idoc_field_removal (idoc_content field_path mode : String) : String :=
  joinChar '\n' ((splitChar '\n' idoc_content).map (idocLine field_path mode))

/-! ## XML strategy (`process_xml_field_removal`)

The `xml.etree.ElementTree` library is an external dependency.  Documents are
modelled as element trees with tag, optional text and children (attributes and
tail text, which the mutation loop never touches, are not modelled); the parse
step `ET.fromstring` is a parameter, with `none` standing for the caught
`ET.ParseError`.  The Python loop iterates the stale `findall` result but
recomputes `root.find(f".//{tag}/..")` — the parent of the first remaining
match in document order — on the current tree at each iteration; this is
modelled positionally: as many steps as there were initial matches, each step
mutating the first remaining match inside its parent. -/

/-- An element-tree node: an element with tag, optional text and children, or a
comment node. -/
inductive XItem where
  | el : String → Option String → List XItem → XItem
  | com : String → XItem

/-- Python `f"{element.text}"` (an absent text renders as `None`). -/
def xTextStr : Option String → String
  | some t => t
  | none => "None"

mutual
/-- Number of elements with the given tag in an item (itself included). -/
def countTagItem (tag : String) : XItem → Nat
  | .el t _ cs => (if t = tag then 1 else 0) + countTagList tag cs
  | .com _ => 0
termination_by x => sizeOf x
decreasing_by
  · simp <;> omega

/-- Number of elements with the given tag in a forest. -/
def countTagList (tag : String) : List XItem → Nat
  | [] => 0
  | x :: xs => countTagItem tag x + countTagList tag xs
termination_by l => sizeOf l
decreasing_by
  · simp <;> omega
  · simp <;> omega
end

/-- Mutate the first element with the given tag (document order) inside a
forest, acting within its parent's child list: `remove` drops it, `comment`
replaces it in place by a comment node carrying tag and prior text (any other
mode leaves it, matching the loop body that sets `modified = True` without
touching the tree).  `none` when the forest holds no such element. -/
def xmlMutateList (tag mode : String) : List XItem → Option (List XItem)
  | [] => none
  | x :: xs =>
    match x with
    | .el t txt cs =>
      if t = tag then
        if mode = "remove" then some xs
        else if mode = "comment" then
          some (.com (" commented-" ++ t ++ ": " ++ xTextStr txt ++ " ") :: xs)
        else some (.el t txt cs :: xs)
      else
        match xmlMutateList tag mode cs with
        | some cs2 => some (.el t txt cs2 :: xs)
        | none =>
          match xmlMutateList tag mode xs with
          | some xs2 => some (.el t txt cs :: xs2)
          | none => none
    | .com s =>
      match xmlMutateList tag mode xs with
      | some xs2 => some (.com s :: xs2)
      | none => none
termination_by l => sizeOf l
decreasing_by
  · simp <;> omega
  · simp <;> omega
  · simp <;> omega

/-- The `for element in elements:` loop of `process_xml_field_removal`: one
step per initially found element; a step with no remaining match corresponds
to `parent is None` and leaves `modified` untouched. -/
def xmlSteps (tag mode : String) : Nat → XItem → XItem × Bool
  | 0, root => (root, false)
  | n + 1, root =>
    match root with
    | .el t txt cs =>
      match xmlMutateList tag mode cs with
      | some cs2 =>
        let r := xmlSteps tag mode n (.el t txt cs2)
        (r.1, true)
      | none => (.el t txt cs, false)
    | .com s => (.com s, false)

mutual
/-- Simplified `ET.tostring` over the model (no attributes, no tail text, no
self-closing form; these details are outside every property proved below). -/
def xmlToStringItem : XItem → String
  | .el t txt cs =>
    "<" ++ t ++ ">" ++ (match txt with | some s => s | none => "") ++
      xmlToStringList cs ++ "</" ++ t ++ ">"
  | .com s => "<!--" ++ s ++ "-->"
termination_by x => sizeOf x
decreasing_by
  · simp <;> omega

/-- Concatenated serialization of a forest. -/
def xmlToStringList : List XItem → String
  | [] => ""
  | x :: xs => xmlToStringItem x ++ xmlToStringList xs
termination_by l => sizeOf l
decreasing_by
  · simp <;> omega
  · simp <;> omega
end

/-- `process_xml_field_removal` (test_generator.py lines 144-172): on a parse
failure the original content is returned unchanged; otherwise all elements
whose tag equals the last component of the field path are mutated, and the
serialized tree is returned when at least one mutation occurred, the original
content otherwise. -/
def process_xml_field_removal (parsed : Option XItem)
    (xml_content field_path mode : String) : String :=
  match parsed with
  | none => xml_content
  | some root =>
    let tag := (splitChar '/' field_path).getLastD ""
    let n := match root with
      | .el _ _ cs => countTagList tag cs
      | .com _ => 0
    let r := xmlSteps tag mode n root
    if r.2 then xmlToStringItem r.1 else xml_content

/-! ## Fixture generation (`find_fields_by_occurrence`, `generate_test_files`) -/

/-- One selected specification field as assembled by
`find_fields_by_occurrence` (element name, `Output Path`, `Output Element`,
raw attributes). -/
structure SpecField where
  element : String
  pathJ : JValue
  outputElementJ : JValue
  attrs : List (String × JValue)

/-- The selection test of `find_fields_by_occurrence` on one raw spec entry
value: a dict whose `Source Occurs` value (default `""`) equals the target. -/
def specEntrySel (d : JValue) (target : String) : Bool :=
  match d with
  | .obj attrs =>
    match (dictGet? attrs "Source Occurs").getD (.str "") with
    | .str s => s = target
    | _ => false
  | _ => false

/-- `find_fields_by_occurrence` (test_generator.py lines 53-74): the entry
named `format` is skipped; an entry is selected exactly when its
`Source Occurs` value (default `""`) equals the target occurrence string.
`none` models the uncaught `AttributeError` raised by `.get` on a non-dict
entry, which aborts the run. -/
def find_fields_by_occurrence (spec_data : List (String × JValue))
    (target_occurrence : String) : Option (List SpecField) :=
  match spec_data with
  | [] => some []
  | (k, v) :: rest =>
    if k = "format" then find_fields_by_occurrence rest target_occurrence
    else
      match v with
      | .obj attrs =>
        match find_fields_by_occurrence rest target_occurrence with
        | none => none
        | some fs =>
          if specEntrySel (.obj attrs) target_occurrence then
            some ({ element := k,
                    pathJ := (dictGet? attrs "Output Path").getD (.str ""),
                    outputElementJ := (dictGet? attrs "Output Element").getD (.str ""),
                    attrs := attrs } :: fs)
          else some fs
      | _ => none

/-- `"1...1" if test_type == "required" else "0...1"`
(test_generator.py line 322). -/
def targetOccurrenceOf (test_type : String) : String :=
  if test_type = "required" then "1...1" else "0...1"

/-- `re.sub(r'[^\w\-_]', '_', element)`: characters outside word chars and
`-` become underscores. -/
def safeFieldName (s : String) : String :=
  String.mk (s.data.map (fun c => if isWordChar c || c = '-' then c else '_'))

/-- `f"{output_prefix}{safe_field_name}_{i:03d}.{ext}"`
(test_generator.py line 369). -/
def fixtureName ( output_prefix ext : String) (i : Nat) (element : String) : String :=
  output_prefix ++ safeFieldName element ++ "_" ++ pad3 i ++ "." ++ ext

/-- Content written to a fixture file: a serialized JSON document
(`json.dumps`, kept as the document value) or plain text. -/
inductive FileContent where
  | jsonDoc : JValue → FileContent
  | text : String → FileContent

/-- The JSON field-path assembly of `generate_test_files`
(lines 337-339): strip the `JSON/` prefixes from `Output Path`, then append a
truthy `Output Element` after a dot (f-string stringification applies to a
non-string `Output Element`; a non-string path, or a raw non-string passed on
as the whole path, raises inside the per-field `try` — modelled by `none`,
which skips the field). -/
def jsonFieldPath (pathJ oeJ : JValue) : Option String :=
  match pathJ with
  | .str p =>
    let fp := replaceSub (replaceSub p "/JSON/" "") "JSON/" ""
    if jTruthy oeJ then
      if fp ≠ "" then some (fp ++ "." ++ pyStrJ oeJ)
      else
        match oeJ with
        | .str o => some o
        | _ => none
    else some fp
  | _ => none

/-- `field['output_element'] or field['element']` (line 349); a truthy
non-string `Output Element` raises inside `process_xml_field_removal`
(`.split` on a non-string) and the field is skipped. -/
def xmlFieldPath (element : String) (oeJ : JValue) : Option String :=
  if jTruthy oeJ then
    match oeJ with
    | .str o => some o
    | _ => none
  else some element

/-- The per-field body of the generation loop of `generate_test_files`
(lines 331-365): the produced file content, or `none` when the field is
skipped (JSON `changed=false` path, unsupported format, or an exception caught
by the per-field `try`).  Note that only the JSON branch checks the mutation
outcome; the other formats always produce a file. -/
def genStep (file_format : String) (maxJson : JValue) (maxText : String)
    (xmlParse : String → Option XItem) (mode : String) (f : SpecField) :
    Option FileContent :=
  match file_format with
  | "JSON" =>
    match jsonFieldPath f.pathJ f.outputElementJ with
    | some fp =>
      match process_json_field_removal maxJson fp mode with
      | some (d, true) => some (.jsonDoc d)
      | some (_, false) => none
      | none => none
    | none => none
  | "XML" =>
    match xmlFieldPath f.element f.outputElementJ with
    | some fp => some (.text (process_xml_field_removal (xmlParse maxText) maxText fp mode))
    | none => none
  | "EDI-X12" => some (.text (process_edi_field_removal maxText f.element mode))
  | "EDIFACT" => some (.text (process_edifact_field_removal maxText f.element mode))
  | "IDOC" => some (.text (process_idoc_field_removal maxText f.element mode))
  | _ => none

/-- The enumerated generation loop (`for i, field in enumerate(target_fields, 1)`). -/
def genLoop (file_format : String) (maxJson : JValue) (maxText : String)
    (xmlParse : String → Option XItem) (mode output_prefix ext : String) :
    Nat → List SpecField → List (String × FileContent)
  | _, [] => []
  | i, f :: fs =>
    match genStep file_format maxJson maxText xmlParse mode f with
    | some c =>
      (fixtureName output_prefix ext i f.element, c) ::
        genLoop file_format maxJson maxText xmlParse mode output_prefix ext (i + 1) fs
    | none => genLoop file_format maxJson maxText xmlParse mode output_prefix ext (i + 1) fs

/-- `generate_test_files` (test_generator.py lines 302-382), modelled from the
point where configuration, spec and sample have been loaded: the written
fixture files as `(filename, content)` pairs, in order.  `maxJson` is the
parse of the sample for the JSON branch (`json.loads(max_content)` yields the
same value at every iteration), `maxText` the raw text for the other branches,
`xmlParse` the external XML parser. -/
def generate_test_files (test_type : String) (spec_data : List (String × JValue))
    (file_format : String) (maxJson : JValue) (maxText : String)
    (xmlParse : String → Option XItem) (mode output_prefix ext : String) :
    List (String × FileContent) :=
  match find_fields_by_occurrence spec_data (targetOccurrenceOf test_type) with
  | none => []
  | some fields => genLoop file_format maxJson maxText xmlParse mode output_prefix ext 1 fields

/-! ## Legacy required run (`Required.py`, `modify_json_and_generate_files`) -/

/-- `details.get("Source Occurs") in ("1...1", "1...*")` (Required.py line 69). -/
def requiredOccursB (dkvs : List (String × JValue)) : Bool :=
  match dictGet? dkvs "Source Occurs" with
  | some (.str s) => s = "1...1" || s = "1...*"
  | _ => false

/-- `details.get("Source Occurs") in ("0...1", "0...*")` (Optional2.py line 74),
the selection condition of the legacy optional run. -/
def optionalOccursB (dkvs : List (String × JValue)) : Bool :=
  match dictGet? dkvs "Source Occurs" with
  | some (.str s) => s = "0...1" || s = "0...*"
  | _ => false

/-- Observable state of the `modify_json_and_generate_files` loop
(Required.py lines 47-96): files written so far, the `modified_keys` list, the
`found` flag, the keys whose selection was logged at line 70, and the loaded
`max_data`, which the loop only ever reads. -/
structure ReqState where
  files : List (String × JValue)
  modifiedKeys : List String
  found : Bool
  selectedLog : List String
  maxData : JValue

/-- `f"{CONFIG['output_prefix']}MissRE-{key}.json"` (Required.py line 79). -/
def reqFileName (pfx k : String) : String := pfx ++ "MissRE-" ++ k ++ ".json"

/-- One iteration of the spec loop of `modify_json_and_generate_files`
(Required.py lines 63-87): skip non-dict details; on a selected key, deep-copy
`max_data`, run `find_and_modify_keys` on the copy, and on success write the
file and record the key. -/
def reqStep (pfx mode : String) (s : ReqState) (entry : String × JValue) : ReqState :=
  match entry.2 with
  | .obj dkvs =>
    if requiredOccursB dkvs then
      match find_and_modify_keys (deepCopy s.maxData) entry.1 mode with
      | (m2, true) =>
        { files := s.files ++ [(reqFileName pfx entry.1, m2)],
          modifiedKeys := s.modifiedKeys ++ [entry.1],
          found := true,
          selectedLog := s.selectedLog ++ [entry.1],
          maxData := s.maxData }
      | (_, false) => { s with selectedLog := s.selectedLog ++ [entry.1] }
    else s
  | _ => s

/-- Fold of `reqStep` over the specification entries. -/
def runRequiredFrom (pfx mode : String) (s : ReqState) :
    List (String × JValue) → ReqState
  | [] => s
  | e :: es => runRequiredFrom pfx mode (reqStep pfx mode s e) es

/-- State before the loop of `modify_json_and_generate_files`. -/
def initReqState (max : JValue) : ReqState :=
  { files := [], modifiedKeys := [], found := false, selectedLog := [], maxData := max }

/-- The whole legacy required run over an already-loaded spec and sample. -/
def runRequired (pfx : String) (spec : List (String × JValue)) (max : JValue)
    (mode : String) : ReqState :=
  runRequiredFrom pfx mode (initReqState max) spec

/-- The `_modified_keys.txt` manifest: written only when `found`
(Required.py lines 89-94). -/
def runRequiredManifest (pfx : String) (spec : List (String × JValue))
    (max : JValue) (mode : String) : Option (List String) :=
  let s := runRequired pfx spec max mode
  if s.found then some s.modifiedKeys else none

/-! ## Specification extraction (`extractor4.py`, `extractor2.py`)

A tabular cell delivered by the external pandas reader is `Option String`:
`none` is a NaN cell (`pd.notna` is false and `str()` renders it `"nan"`),
`some s` a cell whose `str()` is `s`.  A row is positionally aligned with the
headers.  The nested result dict of extractor4 mixes dicts (hierarchy levels
and element entries) with strings (attribute values), captured by `SpecNode`;
descending into a string value raises a `TypeError` in Python, modelled by
`Option.none`. -/

/-- A node of the nested specification structure built by extractor4: an
attribute string or a nested dict. -/
inductive SpecNode where
  | str : String → SpecNode
  | node : List (String × SpecNode) → SpecNode

/-- State of a `HierarchyBuilder` (extractor4.py lines 4-8): the duplicate
counter and the result tree being built. -/
structure BState where
  counter : List (String × Nat)
  tree : List (String × SpecNode)

/-- `f"{'/'.join(hierarchy_path)}/{element_name}" if hierarchy_path else
element_name` (extractor4.py line 14). -/
def uniqueKeyOf (path : List String) (name : String) : String :=
  match path with
  | [] => name
  | _ => joinChar '/' path ++ "/" ++ name

/-- `f"{element_name}_occurrence_{count}"` when the count exceeds one
(extractor4.py lines 22-25). -/
def finalNameOf (name : String) (c : Nat) : String :=
  if c > 1 then name ++ "_occurrence_" ++ toString c else name

/-- The counter update of `add_element` (extractor4.py lines 17-19). -/
def bumpCounter (counter : List (String × Nat)) (uk : String) :
    List (String × Nat) × Nat :=
  let c := (dictGet? counter uk).getD 0 + 1
  (dictSet counter uk c, c)

/-- `current_level[final]["source_path"] = source_path` followed by
`current_level[final].update(attributes)` applied to the element's dict. -/
def applyAttrs (kvs : List (String × SpecNode)) (attrs : List (String × String))
    (sp : String) : List (String × SpecNode) :=
  attrs.foldl (fun acc p => dictSet acc p.1 (.str p.2))
    (dictSet kvs "source_path" (.str sp))

/-- The tree part of `add_element` (extractor4.py lines 27-42): walk the
hierarchy path creating missing levels (appended at the end, like a fresh dict
key), then create or update the element entry.  Encountering a string value on
the way models the Python `TypeError` (`none`). -/
def updTree (tree : List (String × SpecNode)) : List String → String →
    List (String × String) → String → Option (List (String × SpecNode))
  | [], fname, attrs, sp =>
    match dictGet? tree fname with
    | none => some (tree ++ [(fname, SpecNode.node (applyAttrs [] attrs sp))])
    | some (.node kvs) => some (dictSet tree fname (.node (applyAttrs kvs attrs sp)))
    | some (.str _) => none
  | level :: rest, fname, attrs, sp =>
    match dictGet? tree level with
    | none =>
      match updTree [] rest fname attrs sp with
      | some sub => some (tree ++ [(level, SpecNode.node sub)])
      | none => none
    | some (.node kvs) =>
      match updTree kvs rest fname attrs sp with
      | some kvs2 => some (dictSet tree level (.node kvs2))
      | none => none
    | some (.str _) => none

/-- `HierarchyBuilder.add_element` (extractor4.py lines 10-44): bump the
occurrence counter for the path-plus-name key, derive the possibly suffixed
final element name, and install the element; returns the updated builder and
the final name. -/
def add_element (st : BState) (hierarchy_path : List String)
    (element_name : String) (attrs : List (String × String))
    (source_path : String) : Option (BState × String) :=
  let uk := uniqueKeyOf hierarchy_path element_name
  let bc := bumpCounter st.counter uk
  let fname := finalNameOf element_name bc.2
  match updTree st.tree hierarchy_path fname attrs source_path with
  | some tree2 => some ({ counter := bc.1, tree := tree2 }, fname)
  | none => none

/-- A tabular cell: `none` is NaN. -/
abbrev Cell := Option String

/-- `str(cell)`: NaN renders as `"nan"`. -/
def cellStr : Cell → String
  | none => "nan"
  | some s => s

/-- First header containing the text `Source Occurs`
(extractor4.py lines 253-256, extractor2.py lines 11-15). -/
def findSourceOccursIdx (headers : List String) : Option Nat :=
  headers.findIdx? (fun h => containsStr h "Source Occurs")

/-- Hierarchy-cell filter of extractor4 (lines 275-279): non-empty after
strip, not the literal `nan`, and lowercase not in `['', 'null']`. -/
def hierVal4 (c : Cell) : Option String :=
  let v := pyStrip (cellStr c)
  if v ≠ "" ∧ v ≠ "nan" ∧ pyLower v ≠ "" ∧ pyLower v ≠ "null" then some v else none

/-- The hierarchy values collected from a row's input columns (extractor4). -/
def rowParts4 (idx : Nat) (row : List Cell) : List String :=
  (row.take idx).filterMap hierVal4

/-- `value.replace("…", "...")`. -/
def cleanAttr (v : String) : String := replaceSub v "…" "..."

/-- The attribute pairs collected from a row (extractor4 lines 293-298):
non-NaN, non-blank after strip, ellipsis normalised, lowercase not in
`['', 'null', 'nan']`. -/
def rowAttrs4 (idx : Nat) (headers : List String) (row : List Cell) :
    List (String × String) :=
  ((headers.drop idx).zip (row.drop idx)).filterMap (fun p =>
    match p.2 with
    | none => none
    | some raw =>
      let v := pyStrip raw
      if v ≠ "" then
        let clean := cleanAttr v
        if pyLower clean ≠ "" ∧ pyLower clean ≠ "null" ∧ pyLower clean ≠ "nan" then
          some (p.1, clean)
        else none
      else none)

/-- One row of `extract_universal_hierarchy` (extractor4.py lines 270-308):
skip a row without hierarchy values, skip a row without attributes, otherwise
add the element. -/
def univRow4 (idx : Nat) (headers : List String) (st : BState) (row : List Cell) :
    Option BState :=
  let parts := rowParts4 idx row
  if parts.isEmpty then some st
  else
    let sp := "/" ++ joinChar '/' parts
    let name := parts.getLastD ""
    let hpath := parts.dropLast
    let attrs := rowAttrs4 idx headers row
    if attrs.isEmpty then some st
    else
      match add_element st hpath name attrs sp with
      | some r => some r.1
      | none => none

/-- One row of `extract_json_hierarchy` (extractor4.py lines 73-112): same as
the universal row except that the element is added even with an empty
attribute set. -/
def jsonRow4 (idx : Nat) (headers : List String) (st : BState) (row : List Cell) :
    Option BState :=
  let parts := rowParts4 idx row
  if parts.isEmpty then some st
  else
    let sp := "/" ++ joinChar '/' parts
    let name := parts.getLastD ""
    let hpath := parts.dropLast
    let attrs := rowAttrs4 idx headers row
    match add_element st hpath name attrs sp with
    | some r => some r.1
    | none => none

/-- `extract_universal_hierarchy` (extractor4.py lines 243-310). -/
def extract_universal_hierarchy4 (headers : List String)
    (rows : List (List Cell)) : Option (List (String × SpecNode)) :=
  match findSourceOccursIdx headers with
  | none => some []
  | some idx =>
    match rows.foldlM (univRow4 idx headers) { counter := [], tree := [] } with
    | some st => some st.tree
    | none => none

/-- `extract_json_hierarchy` (extractor4.py lines 46-114). -/
def extract_json_hierarchy (headers : List String)
    (rows : List (List Cell)) : Option (List (String × SpecNode)) :=
  match findSourceOccursIdx headers with
  | none => some []
  | some idx =>
    match rows.foldlM (jsonRow4 idx headers) { counter := [], tree := [] } with
    | some st => some st.tree
    | none => none

/-- Hierarchy-cell filter of extractor2 (lines 32-35): non-empty after strip
and not the literal `nan`. -/
def hierVal2 (c : Cell) : Option String :=
  let v := pyStrip (cellStr c)
  if v ≠ "" ∧ v ≠ "nan" then some v else none

/-- The hierarchy values collected from a row's input columns (extractor2). -/
def rowParts2 (idx : Nat) (row : List Cell) : List String :=
  (row.take idx).filterMap hierVal2

/-- The attribute pairs collected from a row by extractor2 (lines 44-50). -/
def rowAttrs2 (idx : Nat) (headers : List String) (row : List Cell) :
    List (String × String) :=
  ((headers.drop idx).zip (row.drop idx)).filterMap (fun p =>
    let v := pyStrip (cellStr p.2)
    if v ≠ "" ∧ v ≠ "nan" then some (p.1, cleanAttr v) else none)

/-- One row of extractor2's `extract_universal_hierarchy` (lines 29-53): the
element name joins all hierarchy parts with `/` when there are several, and
the flat result entry is stored only when attributes are non-empty. -/
def univRow2 (idx : Nat) (headers : List String)
    (acc : List (String × List (String × String))) (row : List Cell) :
    List (String × List (String × String)) :=
  let parts := rowParts2 idx row
  if parts.isEmpty then acc
  else
    let name := if parts.length = 1 then parts.getLastD "" else joinChar '/' parts
    let attrs := rowAttrs2 idx headers row
    if attrs.isEmpty then acc else dictSet acc name attrs

/-- extractor2's `extract_universal_hierarchy` (extractor2.py lines 3-55). -/
def extract_universal_hierarchy2 (headers : List String)
    (rows : List (List Cell)) : List (String × List (String × String)) :=
  match findSourceOccursIdx headers with
  | none => []
  | some idx => rows.foldl (univRow2 idx headers) []

/-! ## Derived observation functions used in the statements below -/

/-- Character-list join used to reason about `joinChar`. -/
def listJoinChar (c : Char) : List (List Char) → List Char
  | [] => []
  | [x] => x
  | x :: y :: tl => x ++ c :: listJoinChar c (y :: tl)

/-- Number of occurrences of a character in a string. -/
def countChar (s : String) (c : Char) : Nat := s.data.count c

/-- The fixture file contributed by one spec entry of the legacy required run,
as a function of the pristine `max_data` only. -/
def reqFileFor (pfx mode : String) (max : JValue) (e : String × JValue) :
    Option (String × JValue) :=
  match e.2 with
  | .obj dkvs =>
    if requiredOccursB dkvs then
      match find_and_modify_keys (deepCopy max) e.1 mode with
      | (m2, true) => some (reqFileName pfx e.1, m2)
      | (_, false) => none
    else none
  | _ => none

/-- The `modified_keys` entry contributed by one spec entry of the legacy
required run. -/
def reqModKeyFor (mode : String) (max : JValue) (e : String × JValue) :
    Option String :=
  match e.2 with
  | .obj dkvs =>
    if requiredOccursB dkvs then
      match find_and_modify_keys (deepCopy max) e.1 mode with
      | (_, true) => some e.1
      | (_, false) => none
    else none
  | _ => none

/-- The line-70 selection log entry contributed by one spec entry of the
legacy required run. -/
def reqSelFor (e : String × JValue) : Option String :=
  match e.2 with
  | .obj dkvs => if requiredOccursB dkvs then some e.1 else none
  | _ => none

/-- Follow a hierarchy path through the extractor4 result tree, landing on the
dict at that level. -/
def getLevel (tree : List (String × SpecNode)) : List String →
    Option (List (String × SpecNode))
  | [] => some tree
  | l :: ls =>
    match dictGet? tree l with
    | some (.node kvs) => getLevel kvs ls
    | _ => none

/-- The tree grown by `updTree` from an empty dict along a hierarchy path. -/
def freshTree (fname : String) (attrs : List (String × String)) (sp : String) :
    List String → List (String × SpecNode)
  | [] => [(fname, SpecNode.node (applyAttrs [] attrs sp))]
  | l :: ls => [(l, SpecNode.node (freshTree fname attrs sp ls))]


/-! # Lemmas -/

theorem stringExt {a b : String} (h : a.data = b.data) : a = b := by
  cases a
  cases b
  simp_all

theorem splitCharAux_ne_nil (c : Char) (l : List Char) : splitCharAux c l ≠ [] := by
  induction l with
  | nil => simp [splitCharAux]
  | cons x xs ih =>
    cases h : splitCharAux c xs with
    | nil => exact absurd h ih
    | cons r rs =>
      simp only [splitCharAux, h]
      by_cases hx : x = c <;> simp [hx]

theorem data_joinChar (c : Char) : ∀ ps : List String,
    (joinChar c ps).data = listJoinChar c (ps.map String.data) := by
  intro ps
  induction ps with
  | nil => rfl
  | cons x tl ih =>
    cases tl with
    | nil => rfl
    | cons y tl2 =>
      simp only [joinChar, listJoinChar, List.map]
      rw [String.data_append, String.data_append]
      rw [ih]
      simp [String.singleton]

theorem listJoinChar_splitCharAux (c : Char) : ∀ l : List Char,
    listJoinChar c (splitCharAux c l) = l := by
  intro l
  induction l with
  | nil => rfl
  | cons x xs ih =>
    simp only [splitCharAux]
    cases h : splitCharAux c xs with
    | nil => exact absurd h (splitCharAux_ne_nil c xs)
    | cons r rs =>
      rw [h] at ih
      by_cases hx : x = c
      · subst hx
        simp only [if_pos rfl, listJoinChar]
        simpa using ih
      · simp only [if_neg hx]
        cases rs with
        | nil =>
          simp only [listJoinChar] at ih ⊢
          simp [ih]
        | cons s rs2 =>
          simp only [listJoinChar, List.cons_append] at ih ⊢
          simp [ih]

theorem joinChar_splitChar (c : Char) (s : String) :
    joinChar c (splitChar c s) = s := by
  apply stringExt
  unfold splitChar
  rw [data_joinChar, List.map_map]
  have hmap : (String.data ∘ String.mk) = id := funext fun _ => rfl
  rw [hmap, List.map_id, listJoinChar_splitCharAux]

theorem not_mem_of_mem_splitCharAux (c : Char) : ∀ (l : List Char) (t : List Char),
    t ∈ splitCharAux c l → c ∉ t := by
  intro l
  induction l with
  | nil =>
    intro t ht
    simp [splitCharAux] at ht
    subst ht
    simp
  | cons x xs ih =>
    intro t ht
    cases h : splitCharAux c xs with
    | nil => exact absurd h (splitCharAux_ne_nil c xs)
    | cons r rs =>
      simp only [splitCharAux, h] at ht
      rw [h] at ih
      by_cases hx : x = c
      · rw [if_pos hx] at ht
        rcases List.mem_cons.mp ht with h1 | h2
        · simp [h1]
        · exact ih t h2
      · rw [if_neg hx] at ht
        rcases List.mem_cons.mp ht with h1 | h2
        · subst h1
          intro hmem
          rcases List.mem_cons.mp hmem with h3 | h4
          · exact hx h3.symm
          · exact ih r (List.mem_cons_self r rs) h4
        · exact ih t (List.mem_cons_of_mem r h2)

theorem splitCharAux_no_sep (c : Char) : ∀ p : List Char, c ∉ p →
    splitCharAux c p = [p] := by
  intro p
  induction p with
  | nil => intro _; rfl
  | cons x xs ih =>
    intro hp
    have hx : x ≠ c := fun h => hp (h ▸ List.mem_cons_self x xs)
    have hxs : c ∉ xs := fun h => hp (List.mem_cons_of_mem x h)
    simp only [splitCharAux, ih hxs, if_neg hx]

theorem splitCharAux_append (c : Char) : ∀ (p rest : List Char), c ∉ p →
    splitCharAux c (p ++ c :: rest) = p :: splitCharAux c rest := by
  intro p
  induction p with
  | nil =>
    intro rest _
    simp only [List.nil_append, splitCharAux]
    cases h : splitCharAux c rest with
    | nil => exact absurd h (splitCharAux_ne_nil c rest)
    | cons r rs => simp
  | cons x xs ih =>
    intro rest hp
    have hx : x ≠ c := fun h => hp (h ▸ List.mem_cons_self x xs)
    have hxs : c ∉ xs := fun h => hp (List.mem_cons_of_mem x h)
    simp only [List.cons_append, List.append_eq, splitCharAux, ih rest hxs, if_neg hx]

theorem splitCharAux_listJoinChar (c : Char) : ∀ ps : List (List Char),
    ps ≠ [] → (∀ p ∈ ps, c ∉ p) → splitCharAux c (listJoinChar c ps) = ps := by
  intro ps
  induction ps with
  | nil => intro h; exact absurd rfl h
  | cons p tl ih =>
    intro _ hfree
    cases tl with
    | nil =>
      simp only [listJoinChar]
      exact splitCharAux_no_sep c p (hfree p (List.mem_cons_self p []))
    | cons q tl2 =>
      simp only [listJoinChar]
      rw [splitCharAux_append c p _ (hfree p (List.mem_cons_self p _))]
      rw [ih (by simp) (fun t ht => hfree t (List.mem_cons_of_mem p ht))]

theorem containsChar_false_iff (t : String) (c : Char) :
    containsChar t c = false ↔ c ∉ t.data := by
  unfold containsChar
  simp

theorem splitChar_joinChar (c : Char) (parts : List String) (hne : parts ≠ [])
    (hfree : ∀ t ∈ parts, containsChar t c = false) :
    splitChar c (joinChar c parts) = parts := by
  unfold splitChar
  rw [data_joinChar]
  rw [splitCharAux_listJoinChar c (parts.map String.data) (by simpa)
    (by
      intro p hp
      rcases List.mem_map.mp hp with ⟨t, ht, rfl⟩
      exact (containsChar_false_iff t c).mp (hfree t ht))]
  rw [List.map_map]
  have hmap : (String.mk ∘ String.data) = id := funext fun _ => rfl
  rw [hmap, List.map_id]

theorem count_listJoinChar (c : Char) : ∀ ps : List (List Char), ps ≠ [] →
    (∀ p ∈ ps, c ∉ p) → (listJoinChar c ps).count c = ps.length - 1 := by
  intro ps
  induction ps with
  | nil => intro h; exact absurd rfl h
  | cons p tl ih =>
    intro _ hfree
    cases tl with
    | nil =>
      simp only [listJoinChar]
      simp [List.count_eq_zero_of_not_mem (hfree p (List.mem_cons_self p []))]
    | cons q tl2 =>
      simp only [listJoinChar]
      rw [List.count_append]
      simp only [List.count_cons]
      rw [ih (by simp) (fun t ht => hfree t (List.mem_cons_of_mem p ht))]
      rw [List.count_eq_zero_of_not_mem (hfree p (List.mem_cons_self p _))]
      simp

theorem mem_splitChar_no_sep (c : Char) (s t : String)
    (ht : t ∈ splitChar c s) : containsChar t c = false := by
  unfold splitChar at ht
  rcases List.mem_map.mp ht with ⟨p, hp, rfl⟩
  rw [containsChar_false_iff]
  exact not_mem_of_mem_splitCharAux c s.data p hp

/-! ### Association-list lemmas -/

theorem dictGet?_of_not_mem {α : Type} : ∀ (m : List (String × α)) (k : String),
    k ∉ m.map Prod.fst → dictGet? m k = none := by
  intro m
  induction m with
  | nil => intro k _; rfl
  | cons p ps ih =>
    intro k hk
    obtain ⟨k0, v0⟩ := p
    simp only [List.map, List.mem_cons] at hk
    push_neg at hk
    have hne : k0 ≠ k := Ne.symm hk.1
    simp only [dictGet?, if_neg hne]
    exact ih k hk.2

theorem dictGet?_append_cons {α : Type} : ∀ (l₁ : List (String × α)) (l₂ : List (String × α))
    (k : String) (v : α), k ∉ l₁.map Prod.fst →
    dictGet? (l₁ ++ (k, v) :: l₂) k = some v := by
  intro l₁
  induction l₁ with
  | nil => intro l₂ k v _; simp [dictGet?]
  | cons p ps ih =>
    intro l₂ k v hk
    obtain ⟨k0, v0⟩ := p
    simp only [List.map, List.mem_cons] at hk
    push_neg at hk
    have hne : k0 ≠ k := Ne.symm hk.1
    simp only [List.cons_append, List.append_eq, dictGet?, if_neg hne]
    exact ih l₂ k v hk.2

theorem dictDel_append_cons {α : Type} : ∀ (l₁ : List (String × α)) (l₂ : List (String × α))
    (k : String) (v : α), k ∉ l₁.map Prod.fst →
    dictDel (l₁ ++ (k, v) :: l₂) k = l₁ ++ l₂ := by
  intro l₁
  induction l₁ with
  | nil => intro l₂ k v _; simp [dictDel]
  | cons p ps ih =>
    intro l₂ k v hk
    obtain ⟨k0, v0⟩ := p
    simp only [List.map, List.mem_cons] at hk
    push_neg at hk
    have hne : k0 ≠ k := Ne.symm hk.1
    simp only [List.cons_append, List.append_eq, dictDel, if_neg hne]
    rw [ih l₂ k v hk.2]

theorem dictSet_append_of_not_mem {α : Type} : ∀ (m : List (String × α)) (k : String) (v : α),
    k ∉ m.map Prod.fst → dictSet m k v = m ++ [(k, v)] := by
  intro m
  induction m with
  | nil => intro k v _; rfl
  | cons p ps ih =>
    intro k v hk
    obtain ⟨k0, v0⟩ := p
    simp only [List.map, List.mem_cons] at hk
    push_neg at hk
    have hne : k0 ≠ k := Ne.symm hk.1
    simp only [dictSet, if_neg hne, List.cons_append]
    rw [ih k v hk.2]

theorem dictGet?_dictSet_self {α : Type} : ∀ (m : List (String × α)) (k : String) (v : α),
    dictGet? (dictSet m k v) k = some v := by
  intro m
  induction m with
  | nil => intro k v; simp [dictSet, dictGet?]
  | cons p ps ih =>
    intro k v
    obtain ⟨k0, v0⟩ := p
    by_cases hk : k0 = k
    · simp [dictSet, dictGet?, hk]
    · simp only [dictSet, if_neg hk, dictGet?, if_neg hk]
      exact ih k v

theorem dictMem_of_get {α : Type} {m : List (String × α)} {k : String} {v : α}
    (h : dictGet? m k = some v) : dictMem m k = true := by
  simp [dictMem, h]

/-! ### String-append cancellation -/

theorem strAppend_left_cancel {a b c : String} (h : a ++ b = a ++ c) : b = c := by
  apply stringExt
  have hd := congrArg String.data h
  rw [String.data_append, String.data_append] at hd
  exact List.append_cancel_left hd

theorem strAppend_right_cancel {a b c : String} (h : a ++ c = b ++ c) : a = b := by
  apply stringExt
  have hd := congrArg String.data h
  rw [String.data_append, String.data_append] at hd
  exact List.append_cancel_right hd

theorem reqFileName_inj {pfx k k2 : String} (h : reqFileName pfx k = reqFileName pfx k2) :
    k = k2 := by
  unfold reqFileName at h
  have h1 := strAppend_right_cancel h
  exact strAppend_left_cancel h1

/-! ### Legacy required-run structure lemmas -/

theorem reqStep_eq (pfx mode : String) (s : ReqState) (e : String × JValue) :
    reqStep pfx mode s e =
      { files := s.files ++ (reqFileFor pfx mode s.maxData e).toList,
        modifiedKeys := s.modifiedKeys ++ (reqModKeyFor mode s.maxData e).toList,
        found := s.found || (reqModKeyFor mode s.maxData e).isSome,
        selectedLog := s.selectedLog ++ (reqSelFor e).toList,
        maxData := s.maxData } := by
  obtain ⟨k, d⟩ := e
  cases d with
  | obj dkvs =>
    by_cases hocc : requiredOccursB dkvs
    · cases hfmk : find_and_modify_keys (deepCopy s.maxData) k mode with
      | mk m2 b =>
        cases b <;>
          simp [reqStep, reqFileFor, reqModKeyFor, reqSelFor, hocc, hfmk]
    · simp [reqStep, reqFileFor, reqModKeyFor, reqSelFor, hocc]
  | null => simp [reqStep, reqFileFor, reqModKeyFor, reqSelFor]
  | bool b => simp [reqStep, reqFileFor, reqModKeyFor, reqSelFor]
  | num n => simp [reqStep, reqFileFor, reqModKeyFor, reqSelFor]
  | str t => simp [reqStep, reqFileFor, reqModKeyFor, reqSelFor]
  | arr xs => simp [reqStep, reqFileFor, reqModKeyFor, reqSelFor]

theorem runRequiredFrom_eq (pfx mode : String) : ∀ (es : List (String × JValue)) (s : ReqState),
    runRequiredFrom pfx mode s es =
      { files := s.files ++ es.filterMap (reqFileFor pfx mode s.maxData),
        modifiedKeys := s.modifiedKeys ++ es.filterMap (reqModKeyFor mode s.maxData),
        found := s.found || es.any (fun e => (reqModKeyFor mode s.maxData e).isSome),
        selectedLog := s.selectedLog ++ es.filterMap reqSelFor,
        maxData := s.maxData } := by
  intro es
  induction es with
  | nil => intro s; simp [runRequiredFrom]
  | cons e es ih =>
    intro s
    show runRequiredFrom pfx mode (reqStep pfx mode s e) es = _
    rw [ih (reqStep pfx mode s e), reqStep_eq]
    simp only [List.filterMap_cons, List.any_cons]
    cases hf : reqFileFor pfx mode s.maxData e <;>
      cases hk : reqModKeyFor mode s.maxData e <;>
      cases hs : reqSelFor e <;>
        simp [hf, hk, hs, Bool.or_assoc]

theorem runRequired_files (pfx : String) (spec : List (String × JValue))
    (max : JValue) (mode : String) :
    (runRequired pfx spec max mode).files = spec.filterMap (reqFileFor pfx mode max) := by
  unfold runRequired
  rw [runRequiredFrom_eq]
  simp [initReqState]

theorem runRequired_modifiedKeys (pfx : String) (spec : List (String × JValue))
    (max : JValue) (mode : String) :
    (runRequired pfx spec max mode).modifiedKeys = spec.filterMap (reqModKeyFor mode max) := by
  unfold runRequired
  rw [runRequiredFrom_eq]
  simp [initReqState]

theorem runRequired_selectedLog (pfx : String) (spec : List (String × JValue))
    (max : JValue) (mode : String) :
    (runRequired pfx spec max mode).selectedLog = spec.filterMap reqSelFor := by
  unfold runRequired
  rw [runRequiredFrom_eq]
  simp [initReqState]

/-! ### Unified-generator structure lemmas -/

theorem genLoop_map_snd (ff : String) (mJ : JValue) (mT : String)
    (xp : String → Option XItem) (mode pfx ext : String) :
    ∀ (fs : List SpecField) (i : Nat),
    (genLoop ff mJ mT xp mode pfx ext i fs).map Prod.snd =
      fs.filterMap (genStep ff mJ mT xp mode) := by
  intro fs
  induction fs with
  | nil => intro i; rfl
  | cons f fs ih =>
    intro i
    simp only [genLoop, List.filterMap_cons]
    cases h : genStep ff mJ mT xp mode f <;> simp [h, ih]

/-! ### Python-index lemmas for nonnegative positions -/

theorem pyIdx_nat {α : Type} (xs : List α) (n : Nat) (h : n < xs.length) :
    pyIdx xs (n : Int) = xs[n]? := by
  have h0 : ¬ ((n : Int) < 0) := by omega
  have h1 : (0 : Int) ≤ (n : Int) ∧ (n : Int) < (xs.length : Int) := by omega
  show (if 0 ≤ (if (n : Int) < 0 then (n : Int) + xs.length else (n : Int)) ∧
      (if (n : Int) < 0 then (n : Int) + xs.length else (n : Int)) < (xs.length : Int) then
      xs[((if (n : Int) < 0 then (n : Int) + xs.length else (n : Int))).toNat]? else none) = xs[n]?
  rw [if_neg h0, if_pos h1]
  simp

theorem pySetIdx_nat {α : Type} (xs : List α) (n : Nat) (v : α) (h : n < xs.length) :
    pySetIdx xs (n : Int) v = some (xs.set n v) := by
  have h0 : ¬ ((n : Int) < 0) := by omega
  have h1 : (0 : Int) ≤ (n : Int) ∧ (n : Int) < (xs.length : Int) := by omega
  show (if 0 ≤ (if (n : Int) < 0 then (n : Int) + xs.length else (n : Int)) ∧
      (if (n : Int) < 0 then (n : Int) + xs.length else (n : Int)) < (xs.length : Int) then
      some (xs.set ((if (n : Int) < 0 then (n : Int) + xs.length else (n : Int))).toNat v)
      else none) = some (xs.set n v)
  rw [if_neg h0, if_pos h1]
  simp

/-! ### EDI line evaluation lemmas -/

theorem ediLine_eval (field_path mode line : String) (es : List String)
    (hsplit : splitChar '*' line = es)
    (hne : ¬ pyStrip line = "")
    (htil : containsChar line '~' = true)
    (hstart : startsWithStr field_path (es.headD "") = true) :
    ediLine field_path mode line =
      match ediNums (fieldPartOf field_path (es.headD "")) with
      | none => line
      | some (en, sn?) =>
        if en < (es.length : Int) then
          match ediApply es en sn? mode with
          | none => line
          | some es2 => joinChar '*' es2
        else joinChar '*' es := by
  unfold ediLine
  rw [if_neg hne]
  simp only [htil, if_true, hsplit, hstart]

theorem edifactLine_eval (field_path mode line : String) (es : List String)
    (hsplit : splitChar '+' line = es)
    (hne : ¬ pyStrip line = "")
    (hplus : containsChar line '+' = true)
    (hstart : startsWithStr field_path (es.headD "") = true) :
    edifactLine field_path mode line =
      match (if pyIsDigit (fieldPartOf field_path (es.headD "")) then
              pyInt (fieldPartOf field_path (es.headD ""))
             else pyInt (pyTake (fieldPartOf field_path (es.headD "")) 2)) with
      | none => line
      | some en =>
        if en < (es.length : Int) then
          match edifactApply es en mode with
          | none => line
          | some es2 => joinChar '+' es2
        else joinChar '+' es := by
  unfold edifactLine
  rw [if_neg hne]
  simp only [hplus, if_true, hsplit, hstart]

/-! ### `find_fields_by_occurrence` membership -/

theorem find_fields_mem (t : String) : ∀ (spec : List (String × JValue)) (fs : List SpecField),
    find_fields_by_occurrence spec t = some fs →
    ∀ k : String, k ∈ fs.map SpecField.element ↔
      ∃ d, (k, d) ∈ spec ∧ k ≠ "format" ∧ specEntrySel d t = true := by
  intro spec
  induction spec with
  | nil =>
    intro fs hfs k
    simp [find_fields_by_occurrence] at hfs
    subst hfs
    simp
  | cons p rest ih =>
    intro fs hfs k
    obtain ⟨k0, v⟩ := p
    by_cases hk0 : k0 = "format"
    · subst hk0
      rw [show find_fields_by_occurrence (("format", v) :: rest) t =
            find_fields_by_occurrence rest t by simp [find_fields_by_occurrence]] at hfs
      rw [ih fs hfs k]
      constructor
      · rintro ⟨d, hd, hne, hsel⟩
        exact ⟨d, List.mem_cons_of_mem _ hd, hne, hsel⟩
      · rintro ⟨d, hd, hne, hsel⟩
        rcases List.mem_cons.mp hd with h1 | h2
        · exact absurd (congrArg Prod.fst h1) hne
        · exact ⟨d, h2, hne, hsel⟩
    · cases v with
      | obj attrs =>
        rw [show find_fields_by_occurrence ((k0, .obj attrs) :: rest) t =
              (match find_fields_by_occurrence rest t with
               | none => none
               | some fs =>
                 if specEntrySel (.obj attrs) t then
                   some ({ element := k0,
                           pathJ := (dictGet? attrs "Output Path").getD (.str ""),
                           outputElementJ := (dictGet? attrs "Output Element").getD (.str ""),
                           attrs := attrs } :: fs)
                 else some fs)
              by simp [find_fields_by_occurrence, hk0]] at hfs
        cases hrec : find_fields_by_occurrence rest t with
        | none =>
          simp only [hrec] at hfs
          exact Option.noConfusion hfs
        | some fs0 =>
          simp only [hrec] at hfs
          by_cases hsel : specEntrySel (.obj attrs) t
          · rw [if_pos hsel] at hfs
            injection hfs with hfs
            subst hfs
            rw [show ({ element := k0,
                        pathJ := (dictGet? attrs "Output Path").getD (.str ""),
                        outputElementJ := (dictGet? attrs "Output Element").getD (.str ""),
                        attrs := attrs } :: fs0).map SpecField.element =
                  k0 :: fs0.map SpecField.element by simp]
            constructor
            · intro hmem
              rcases List.mem_cons.mp hmem with h1 | h2
              · refine ⟨.obj attrs, ?_, ?_, hsel⟩
                · rw [h1]
                  exact List.mem_cons_self _ _
                · rw [h1]
                  exact hk0
              · rcases (ih fs0 hrec k).mp h2 with ⟨d, hd, hne, hs⟩
                exact ⟨d, List.mem_cons_of_mem _ hd, hne, hs⟩
            · rintro ⟨d, hd, hne, hs⟩
              rcases List.mem_cons.mp hd with h1 | h2
              · exact List.mem_cons.mpr (Or.inl (congrArg Prod.fst h1))
              · exact List.mem_cons.mpr (Or.inr ((ih fs0 hrec k).mpr ⟨d, h2, hne, hs⟩))
          · rw [if_neg hsel] at hfs
            injection hfs with hfs
            subst hfs
            rw [ih fs0 hrec k]
            constructor
            · rintro ⟨d, hd, hne, hs⟩
              exact ⟨d, List.mem_cons_of_mem _ hd, hne, hs⟩
            · rintro ⟨d, hd, hne, hs⟩
              rcases List.mem_cons.mp hd with h1 | h2
              · have hdd : d = .obj attrs := congrArg Prod.snd h1
                rw [hdd] at hs
                exact absurd hs (by simpa using hsel)
              · exact ⟨d, h2, hne, hs⟩
      | null => simp [find_fields_by_occurrence, hk0] at hfs
      | bool b => simp [find_fields_by_occurrence, hk0] at hfs
      | num n => simp [find_fields_by_occurrence, hk0] at hfs
      | str s => simp [find_fields_by_occurrence, hk0] at hfs
      | arr xs => simp [find_fields_by_occurrence, hk0] at hfs

/-! ### Extraction skip lemmas -/

theorem univRow4_skip (idx : Nat) (headers : List String) (st : BState)
    (row : List Cell) (hp : rowParts4 idx row ≠ [])
    (ha : rowAttrs4 idx headers row = []) :
    univRow4 idx headers st row = some st := by
  unfold univRow4
  rw [if_neg (by simpa [List.isEmpty_iff] using hp)]
  rw [if_pos (by simp [List.isEmpty_iff, ha])]

theorem univRow2_skip (idx : Nat) (headers : List String)
    (acc : List (String × List (String × String))) (row : List Cell)
    (ha : rowAttrs2 idx headers row = []) :
    univRow2 idx headers acc row = acc := by
  unfold univRow2
  by_cases hp : (rowParts2 idx row).isEmpty
  · rw [if_pos hp]
  · rw [if_neg hp]
    rw [if_pos (by simp [List.isEmpty_iff, ha])]

theorem extract4_skip_row (headers : List String) (rows₁ rows₂ : List (List Cell))
    (r : List Cell) (idx : Nat) (hidx : findSourceOccursIdx headers = some idx)
    (hp : rowParts4 idx r ≠ []) (ha : rowAttrs4 idx headers r = []) :
    extract_universal_hierarchy4 headers (rows₁ ++ r :: rows₂) =
      extract_universal_hierarchy4 headers (rows₁ ++ rows₂) := by
  unfold extract_universal_hierarchy4
  simp only [hidx]
  have key : ∀ init : BState,
      List.foldlM (univRow4 idx headers) init (rows₁ ++ r :: rows₂) =
        List.foldlM (univRow4 idx headers) init (rows₁ ++ rows₂) := by
    intro init
    rw [List.foldlM_append, List.foldlM_append]
    cases List.foldlM (univRow4 idx headers) init rows₁ with
    | none => rfl
    | some s =>
      show List.foldlM (univRow4 idx headers) s (r :: rows₂) =
        List.foldlM (univRow4 idx headers) s rows₂
      rw [List.foldlM_cons, univRow4_skip idx headers s r hp ha]
      rfl
  rw [key]

theorem extract2_skip_row (headers : List String) (rows₁ rows₂ : List (List Cell))
    (r : List Cell) (idx : Nat) (hidx : findSourceOccursIdx headers = some idx)
    (ha : rowAttrs2 idx headers r = []) :
    extract_universal_hierarchy2 headers (rows₁ ++ r :: rows₂) =
      extract_universal_hierarchy2 headers (rows₁ ++ rows₂) := by
  unfold extract_universal_hierarchy2
  simp only [hidx]
  rw [List.foldl_append, List.foldl_append, List.foldl_cons,
    univRow2_skip idx headers _ r ha]

/-! ### Builder-tree lemmas -/

theorem updTree_nil_tree (fname : String) (attrs : List (String × String))
    (sp : String) : ∀ path : List String,
    updTree [] path fname attrs sp = some (freshTree fname attrs sp path) := by
  intro path
  induction path with
  | nil => simp [updTree, dictGet?, freshTree]
  | cons l ls ih => simp [updTree, dictGet?, freshTree, ih]

theorem getLevel_freshTree (fname : String) (attrs : List (String × String))
    (sp : String) : ∀ path : List String,
    getLevel (freshTree fname attrs sp path) path =
      some [(fname, SpecNode.node (applyAttrs [] attrs sp))] := by
  intro path
  induction path with
  | nil => simp [getLevel, freshTree]
  | cons l ls ih => simp [getLevel, freshTree, dictGet?, ih]

theorem updTree_at_level (fname : String) (attrs : List (String × String))
    (sp : String) : ∀ (path : List String) (tree lv : List (String × SpecNode)),
    getLevel tree path = some lv →
    dictGet? lv fname = none →
    ∃ tree2, updTree tree path fname attrs sp = some tree2 ∧
      getLevel tree2 path =
        some (lv ++ [(fname, SpecNode.node (applyAttrs [] attrs sp))]) := by
  intro path
  induction path with
  | nil =>
    intro tree lv hlev habs
    simp only [getLevel] at hlev
    injection hlev with hlev
    subst hlev
    refine ⟨tree ++ [(fname, SpecNode.node (applyAttrs [] attrs sp))], ?_, ?_⟩
    · simp [updTree, habs]
    · simp [getLevel]
  | cons l ls ih =>
    intro tree lv hlev habs
    simp only [getLevel] at hlev
    cases hdg : dictGet? tree l with
    | none => rw [hdg] at hlev; exact Option.noConfusion hlev
    | some sn =>
      rw [hdg] at hlev
      cases sn with
      | str s => exact Option.noConfusion hlev
      | node kvs =>
        rcases ih kvs lv hlev habs with ⟨kvs2, hupd, hlev2⟩
        refine ⟨dictSet tree l (SpecNode.node kvs2), ?_, ?_⟩
        · simp [updTree, hdg, hupd]
        · simp [getLevel, dictGet?_dictSet_self, hlev2]

/-! # Claim theorems -/

/-- C1 (counterexample): the claim says a Required run selects exactly the
fields whose occurrence is in `{1...1, 1...*}`.  A field with occurrence
`1...*` is in that class (the legacy selector `requiredOccursB` accepts it),
yet the unified generator's required run — which filters with the exact target
string `1...1` — selects nothing from a spec holding only that field and so
generates no fixture for it. -/
theorem C1_counterexample :
    find_fields_by_occurrence [("f1", .obj [("Source Occurs", .str "1...*")])] "1...1" =
      some []
    ∧ requiredOccursB [("Source Occurs", JValue.str "1...*")] = true
    ∧ generate_test_files "required" [("f1", .obj [("Source Occurs", .str "1...*")])]
        "JSON" (.obj [("f1", .str "v")]) "" (fun _ => none) "remove" "P_" "json" = [] := by
  exact ⟨rfl, rfl, rfl⟩

/-- C1 (amended): occurrence filtering.  The legacy Required run
(`Required.py`) selects exactly the spec entries that are dicts whose
`Source Occurs` is `1...1` or `1...*`, and the legacy Optional selector
(`Optional2.py`) accepts exactly `0...1` or `0...*`; the unified generator's
`find_fields_by_occurrence` instead selects exactly the non-`format` entries
whose `Source Occurs` string equals the single target string (`1...1` for a
required run, `0...1` for an optional run), so `1...*` and `0...*` fields are
not selected there. -/
theorem C1_occurrence_filtering :
    (∀ (spec : List (String × JValue)) (t : String) (fs : List SpecField),
      find_fields_by_occurrence spec t = some fs →
      ∀ k : String, k ∈ fs.map SpecField.element ↔
        ∃ d, (k, d) ∈ spec ∧ k ≠ "format" ∧ specEntrySel d t = true)
    ∧ (∀ (d : JValue) (t : String), specEntrySel d t = true ↔
        ∃ attrs, d = .obj attrs ∧ (dictGet? attrs "Source Occurs").getD (.str "") = .str t)
    ∧ (∀ (pfx mode : String) (spec : List (String × JValue)) (max : JValue) (k : String),
        k ∈ (runRequired pfx spec max mode).selectedLog ↔
          ∃ dkvs, (k, JValue.obj dkvs) ∈ spec ∧ requiredOccursB dkvs = true)
    ∧ (∀ dkvs : List (String × JValue), requiredOccursB dkvs = true ↔
        (dictGet? dkvs "Source Occurs" = some (.str "1...1") ∨
         dictGet? dkvs "Source Occurs" = some (.str "1...*")))
    ∧ (∀ dkvs : List (String × JValue), optionalOccursB dkvs = true ↔
        (dictGet? dkvs "Source Occurs" = some (.str "0...1") ∨
         dictGet? dkvs "Source Occurs" = some (.str "0...*"))) := by
  refine ⟨fun spec t => find_fields_mem t spec, ?_, ?_, ?_, ?_⟩
  · intro d t
    cases d with
    | obj attrs =>
      constructor
      · intro h
        refine ⟨attrs, rfl, ?_⟩
        cases hget : (dictGet? attrs "Source Occurs").getD (.str "") with
        | str s =>
          simp only [specEntrySel, hget] at h
          simp at h
          rw [h]
        | null => simp [specEntrySel, hget] at h
        | bool b => simp [specEntrySel, hget] at h
        | num n => simp [specEntrySel, hget] at h
        | arr xs => simp [specEntrySel, hget] at h
        | obj kvs => simp [specEntrySel, hget] at h
      · rintro ⟨attrs2, hd, hget⟩
        injection hd with hd
        subst hd
        simp only [specEntrySel, hget]
        simp
    | null => simp [specEntrySel]
    | bool b => simp [specEntrySel]
    | num n => simp [specEntrySel]
    | str s => simp [specEntrySel]
    | arr xs => simp [specEntrySel]
  · intro pfx mode spec max k
    rw [runRequired_selectedLog]
    rw [List.mem_filterMap]
    constructor
    · rintro ⟨e, he, hsel⟩
      obtain ⟨k0, d⟩ := e
      cases d with
      | obj dkvs =>
        simp only [reqSelFor] at hsel
        by_cases hocc : requiredOccursB dkvs
        · rw [if_pos hocc] at hsel
          injection hsel with hsel
          subst hsel
          exact ⟨dkvs, he, hocc⟩
        · rw [if_neg hocc] at hsel
          exact Option.noConfusion hsel
      | null => exact Option.noConfusion hsel
      | bool b => exact Option.noConfusion hsel
      | num n => exact Option.noConfusion hsel
      | str s => exact Option.noConfusion hsel
      | arr xs => exact Option.noConfusion hsel
    · rintro ⟨dkvs, hd, hocc⟩
      exact ⟨(k, .obj dkvs), hd, by simp [reqSelFor, hocc]⟩
  · intro dkvs
    unfold requiredOccursB
    cases hget : dictGet? dkvs "Source Occurs" with
    | none => simp
    | some v =>
      cases v with
      | str s =>
        constructor
        · intro h
          simp at h
          rcases h with h | h <;> simp [h]
        · intro h
          rcases h with h | h <;> (injection h with h; injection h with h; simp [h])
      | null => simp
      | bool b => simp
      | num n => simp
      | arr xs => simp
      | obj kvs => simp
  · intro dkvs
    unfold optionalOccursB
    cases hget : dictGet? dkvs "Source Occurs" with
    | none => simp
    | some v =>
      cases v with
      | str s =>
        constructor
        · intro h
          simp at h
          rcases h with h | h <;> simp [h]
        · intro h
          rcases h with h | h <;> (injection h with h; injection h with h; simp [h])
      | null => simp
      | bool b => simp
      | num n => simp
      | arr xs => simp
      | obj kvs => simp

/-- C1 witness: the amended characterisations applied at concrete inputs. -/
theorem C1_witness :
    (∃ d, ("a", d) ∈ ([("a", JValue.obj [("Source Occurs", JValue.str "1...1")])] :
        List (String × JValue)) ∧ "a" ≠ "format" ∧ specEntrySel d "1...1" = true)
    ∧ requiredOccursB [("Source Occurs", JValue.str "1...*")] = true := by
  constructor
  · have h := C1_occurrence_filtering.1
      [("a", JValue.obj [("Source Occurs", JValue.str "1...1")])] "1...1"
      [{ element := "a", pathJ := .str "", outputElementJ := .str "",
         attrs := [("Source Occurs", JValue.str "1...1")] }] rfl "a"
    exact h.mp (by simp)
  · exact (C1_occurrence_filtering.2.2.2.1 [("Source Occurs", JValue.str "1...*")]).mpr
      (Or.inr rfl)

/-! ### Name-suffix helpers for C4 -/

theorem self_ne_append {a b : String} (hb : b.data ≠ []) : a ≠ a ++ b := by
  intro h
  have hd := congrArg String.data h
  rw [String.data_append] at hd
  have hlen := congrArg List.length hd
  rw [List.length_append] at hlen
  have : b.data.length = 0 := by omega
  exact hb (List.eq_nil_of_length_eq_zero this)

theorem append_ne_of_ne {a b c : String} (h : b ≠ c) : a ++ b ≠ a ++ c :=
  fun he => h (strAppend_left_cancel he)

theorem finalNameOf_one (name : String) : finalNameOf name 1 = name := by
  simp [finalNameOf]

theorem finalNameOf_two (name : String) : finalNameOf name 2 = name ++ "_occurrence_2" := by
  unfold finalNameOf
  rw [if_pos (by norm_num)]
  rw [String.append_assoc]
  congr 1

theorem finalNameOf_three (name : String) : finalNameOf name 3 = name ++ "_occurrence_3" := by
  unfold finalNameOf
  rw [if_pos (by norm_num)]
  rw [String.append_assoc]
  congr 1

/-- C4 (counterexample): the claim says the occurrence counter is scoped per
hierarchy-path-plus-element-name combination, so an equal element name under a
*different* hierarchy path gets no suffix.  The code scopes the counter by the
slash-joined string `'/'.join(path) + '/' + name`, which conflates the
distinct hierarchy paths `["a", "b"]` and `["a/b"]`: the same element name
`c` added under those two different paths gets the key `a/b/c` both times, so
the second add is suffixed `_occurrence_2` although its hierarchy path
differs. -/
theorem C4_counterexample :
    ((add_element { counter := [], tree := [] } ["a", "b"] "c" [] "s1").bind
      (fun r => add_element r.1 ["a/b"] "c" [] "s2")).map (fun r => r.2) =
      some "c_occurrence_2"
    ∧ (["a", "b"] : List String) ≠ ["a/b"]
    ∧ uniqueKeyOf ["a", "b"] "c" = uniqueKeyOf ["a/b"] "c" := by
  refine ⟨rfl, by decide, rfl⟩

theorem add_element_empty (path : List String) (name : String)
    (attrs : List (String × String)) (sp : String) :
    add_element { counter := [], tree := [] } path name attrs sp =
      some ({ counter := [(uniqueKeyOf path name, 1)],
              tree := freshTree name attrs sp path }, name) := by
  unfold add_element bumpCounter
  simp [dictGet?, dictSet, finalNameOf_one, updTree_nil_tree]

/-- C4 (amended): duplicate disambiguation.  Two adds with the same hierarchy
path and element name produce two distinct keys at that level, the second
suffixed `_occurrence_2` and a third `_occurrence_3`, in first-seen order; the
occurrence counter is scoped per slash-joined `hierarchyPath + "/" +
elementName` string, so an equal element name under a hierarchy path whose
joined string differs gets no suffix (paths conflated by the joined string —
see the counterexample — share one counter). -/
theorem C4_dup_disambiguation :
    (∀ (path : List String) (name : String) (a₁ : List (String × String)) (sp₁ : String)
        (a₂ : List (String × String)) (sp₂ : String)
        (a₃ : List (String × String)) (sp₃ : String),
      ∃ s₁ s₂ : BState,
        add_element { counter := [], tree := [] } path name a₁ sp₁ = some (s₁, name) ∧
        add_element s₁ path name a₂ sp₂ = some (s₂, name ++ "_occurrence_2") ∧
        name ≠ name ++ "_occurrence_2" ∧
        (∃ lv, getLevel s₂.tree path = some lv ∧
          dictMem lv name = true ∧ dictMem lv (name ++ "_occurrence_2") = true) ∧
        (add_element s₂ path name a₃ sp₃).map (fun r => r.2) =
          some (name ++ "_occurrence_3"))
    ∧ (∀ (p₁ p₂ : List String) (name : String) (a₁ a₂ : List (String × String))
        (sp₁ sp₂ : String) (s₁ : BState × String) (r : BState × String),
        uniqueKeyOf p₁ name ≠ uniqueKeyOf p₂ name →
        add_element { counter := [], tree := [] } p₁ name a₁ sp₁ = some s₁ →
        add_element s₁.1 p₂ name a₂ sp₂ = some r →
        r.2 = name) := by
  constructor
  · intro path name a₁ sp₁ a₂ sp₂ a₃ sp₃
    have hne2 : name ≠ name ++ "_occurrence_2" :=
      self_ne_append (by decide)
    have hne3 : name ≠ name ++ "_occurrence_3" :=
      self_ne_append (by decide)
    have hne23 : name ++ "_occurrence_2" ≠ name ++ "_occurrence_3" :=
      append_ne_of_ne (by decide)
    -- the second insertion via `updTree_at_level`
    have hlev1 := getLevel_freshTree name a₁ sp₁ path
    have habs2 : dictGet? [(name, SpecNode.node (applyAttrs [] a₁ sp₁))]
        (name ++ "_occurrence_2") = none := by
      simp [dictGet?, hne2]
    rcases updTree_at_level (name ++ "_occurrence_2") a₂ sp₂ path
        (freshTree name a₁ sp₁ path) _ hlev1 habs2 with ⟨tree2, hupd2, hlev2⟩
    -- the third insertion
    have habs3 : dictGet? ([(name, SpecNode.node (applyAttrs [] a₁ sp₁))] ++
        [(name ++ "_occurrence_2", SpecNode.node (applyAttrs [] a₂ sp₂))])
        (name ++ "_occurrence_3") = none := by
      simp [dictGet?, hne3, hne23]
    rcases updTree_at_level (name ++ "_occurrence_3") a₃ sp₃ path tree2 _ hlev2 habs3
      with ⟨tree3, hupd3, _⟩
    refine ⟨{ counter := [(uniqueKeyOf path name, 1)], tree := freshTree name a₁ sp₁ path },
      { counter := [(uniqueKeyOf path name, 2)], tree := tree2 }, ?_, ?_, hne2, ?_, ?_⟩
    · exact add_element_empty path name a₁ sp₁
    · unfold add_element bumpCounter
      simp [dictGet?, dictSet, finalNameOf_two, hupd2]
    · refine ⟨_, hlev2, ?_, ?_⟩
      · simp [dictMem, dictGet?]
      · simp [dictMem, dictGet?, hne2]
    · unfold add_element bumpCounter
      simp [dictGet?, dictSet, finalNameOf_three, hupd3]
  · intro p₁ p₂ name a₁ a₂ sp₁ sp₂ s₁ r hne h1 h2
    rw [add_element_empty] at h1
    injection h1 with h1
    subst h1
    unfold add_element bumpCounter at h2
    simp only [dictGet?, hne, if_false, Option.getD_none, finalNameOf_one] at h2
    cases hupd : updTree (freshTree name a₁ sp₁ p₁) p₂ (finalNameOf name (0 + 1)) a₂ sp₂ with
    | none =>
      rw [hupd] at h2
      exact Option.noConfusion h2
    | some t2 =>
      rw [hupd] at h2
      injection h2 with h2
      rw [← h2]
      simp [finalNameOf]

/-- C4 witness: the amended statement applied at concrete inputs (duplicate
adds under path `["p"]`, and a no-suffix add under the distinct path `[]`). -/
theorem C4_witness :
    (∃ s₁ s₂ : BState,
      add_element { counter := [], tree := [] } ["p"] "n" [] "s1" = some (s₁, "n") ∧
      add_element s₁ ["p"] "n" [] "s2" = some (s₂, "n" ++ "_occurrence_2") ∧
      "n" ≠ "n" ++ "_occurrence_2" ∧
      (∃ lv, getLevel s₂.tree ["p"] = some lv ∧ dictMem lv "n" = true ∧
        dictMem lv ("n" ++ "_occurrence_2") = true) ∧
      (add_element s₂ ["p"] "n" [] "s3").map (fun r => r.2) =
        some ("n" ++ "_occurrence_3"))
    ∧ (({ counter := [("p/n", 1), ("n", 1)],
          tree := [("p", SpecNode.node [("n", SpecNode.node
                      [("source_path", SpecNode.str "x")])]),
                   ("n", SpecNode.node [("source_path", SpecNode.str "y")])] },
          "n") : BState × String).2 = "n" := by
  constructor
  · exact C4_dup_disambiguation.1 ["p"] "n" [] "s1" [] "s2" [] "s3"
  · exact C4_dup_disambiguation.2 ["p"] [] "n" [] [] "x" "y" _ _ (by decide) rfl rfl

/-- C7 (counterexample): a row with one hierarchy value (`"a"`) and a single
NaN attribute cell has no non-empty attribute values, yet extractor4's
`extract_json_hierarchy` adds the entry `a` (carrying only its `source_path`)
to the result — the claim that no entry is added fails for that extraction
function, while `extract_universal_hierarchy` of the same file does skip the
row. -/
theorem C7_counterexample :
    extract_json_hierarchy ["H1", "Source Occurs"] [[some "a", none]] =
      some [("a", SpecNode.node [("source_path", SpecNode.str "/a")])]
    ∧ extract_universal_hierarchy4 ["H1", "Source Occurs"] [[some "a", none]] = some []
    ∧ rowParts4 1 [some "a", none] ≠ []
    ∧ rowAttrs4 1 ["H1", "Source Occurs"] [[some "a", none]].head! = [] := by
  exact ⟨rfl, rfl, by decide, rfl⟩

/-- C7 (amended): a row that has at least one hierarchy value but whose
attribute cells all fail the non-empty/placeholder filter contributes no entry
for `extract_universal_hierarchy` (both extractor4 and extractor2); by
contrast, `extract_json_hierarchy` (extractor4) adds an entry for every row
with a hierarchy value, attributes or not. -/
theorem C7_empty_attr_rows :
    (∀ (headers : List String) (rows₁ rows₂ : List (List Cell)) (r : List Cell) (idx : Nat),
      findSourceOccursIdx headers = some idx →
      rowParts4 idx r ≠ [] → rowAttrs4 idx headers r = [] →
      extract_universal_hierarchy4 headers (rows₁ ++ r :: rows₂) =
        extract_universal_hierarchy4 headers (rows₁ ++ rows₂))
    ∧ (∀ (headers : List String) (rows₁ rows₂ : List (List Cell)) (r : List Cell) (idx : Nat),
      findSourceOccursIdx headers = some idx →
      rowAttrs2 idx headers r = [] →
      extract_universal_hierarchy2 headers (rows₁ ++ r :: rows₂) =
        extract_universal_hierarchy2 headers (rows₁ ++ rows₂))
    ∧ (∀ (headers : List String) (r : List Cell) (idx : Nat),
      findSourceOccursIdx headers = some idx →
      rowParts4 idx r ≠ [] →
      ∃ tree, extract_json_hierarchy headers [r] = some tree ∧ tree ≠ []) := by
  refine ⟨?_, ?_, ?_⟩
  · intro headers rows₁ rows₂ r idx hidx hp ha
    exact extract4_skip_row headers rows₁ rows₂ r idx hidx hp ha
  · intro headers rows₁ rows₂ r idx hidx ha
    exact extract2_skip_row headers rows₁ rows₂ r idx hidx ha
  · intro headers r idx hidx hp
    unfold extract_json_hierarchy
    simp only [hidx]
    rw [show List.foldlM (jsonRow4 idx headers) { counter := [], tree := [] }
          [r] = jsonRow4 idx headers { counter := [], tree := [] } r by
        rw [List.foldlM_cons]
        cases jsonRow4 idx headers { counter := [], tree := [] } r <;> rfl]
    unfold jsonRow4
    rw [if_neg (by simpa [List.isEmpty_iff] using hp)]
    simp only [add_element_empty]
    refine ⟨_, rfl, ?_⟩
    cases (rowParts4 idx r).dropLast <;> simp [freshTree]

/-- C7 witness: the amended statement applied to a concrete sheet whose single
data row has hierarchy value `a` and only a NaN attribute cell. -/
theorem C7_witness :
    extract_universal_hierarchy4 ["H1", "Source Occurs"]
        ([] ++ [some "a", none] :: []) =
      extract_universal_hierarchy4 ["H1", "Source Occurs"] ([] ++ [])
    ∧ extract_universal_hierarchy2 ["H1", "Source Occurs"]
        ([] ++ [some "a", none] :: []) =
      extract_universal_hierarchy2 ["H1", "Source Occurs"] ([] ++ [])
    ∧ ∃ tree, extract_json_hierarchy ["H1", "Source Occurs"] [[some "a", none]] =
        some tree ∧ tree ≠ [] := by
  refine ⟨?_, ?_, ?_⟩
  · exact C7_empty_attr_rows.1 ["H1", "Source Occurs"] [] [] [some "a", none] 1 rfl
      (by decide) rfl
  · exact C7_empty_attr_rows.2.1 ["H1", "Source Occurs"] [] [] [some "a", none] 1 rfl rfl
  · exact C7_empty_attr_rows.2.2 ["H1", "Source Occurs"] [some "a", none] 1 rfl (by decide)

/-- C8 (counterexample): the claim says IDOC Remove blanks every contiguous
run of *non-whitespace* characters.  The code blanks `\w+` runs (letters,
digits, underscore) only: in the matching line `E1EDK01 VAL-1` the hyphen of
the non-whitespace run `VAL-1` survives at position 11 of the output, so the
positions previously occupied by a non-whitespace run still contain a
non-whitespace character. -/
theorem C8_counterexample :
    process_idoc_field_removal "E1EDK01 VAL-1" "E1EDK01" "remove" = "           - "
    ∧ ("           - " : String).data.getD 11 ' ' = '-'
    ∧ isPySpace '-' = false
    ∧ ("E1EDK01 VAL-1" : String).data.getD 11 ' ' = '-'
    ∧ ("E1EDK01 VAL-1" : String).data.getD 10 ' ' = 'L' := by
  exact ⟨rfl, by decide, by decide, by decide, by decide⟩

/-- C8 (amended): for an IDOC line starting `E1`/`E2` whose six-character
segment type prefixes the field path, Remove replaces every word character
(letter, digit or underscore) by a space and keeps every other character, so
the line length is preserved; positions that previously held word characters
become spaces, but non-word punctuation inside a non-whitespace run (such as
`-`) remains in place. -/
theorem C8_idoc_remove (line field_path : String)
    (h1 : startsWithStr line "E1" = true ∨ startsWithStr line "E2" = true)
    (h2 : startsWithStr field_path (pyTake line 6) = true) :
    idocLine field_path "remove" line = blankWordRuns line
    ∧ (idocLine field_path "remove" line).data.length = line.data.length
    ∧ (∀ i, i < line.data.length →
        (isWordChar (line.data.getD i ' ') = true →
          (idocLine field_path "remove" line).data.getD i ' ' = ' ')
        ∧ (isWordChar (line.data.getD i ' ') = false →
          (idocLine field_path "remove" line).data.getD i ' ' = line.data.getD i ' '))
    ∧ process_idoc_field_removal line field_path "remove" =
        joinChar '\n' ((splitChar '\n' line).map (idocLine field_path "remove")) := by
  have hline : idocLine field_path "remove" line = blankWordRuns line := by
    unfold idocLine
    rcases h1 with h | h <;> simp [h, h2]
  refine ⟨hline, ?_, ?_, rfl⟩
  · rw [hline]
    simp [blankWordRuns]
  · intro i hi
    rw [hline]
    have hget : (blankWordRuns line).data.getD i ' ' =
        (if isWordChar (line.data.getD i ' ') then ' ' else line.data.getD i ' ') := by
      unfold blankWordRuns
      rcases hcell : line.data[i]? with _ | c
      · rw [List.getElem?_eq_none_iff] at hcell
        omega
      · rw [List.getD_eq_getElem?_getD, List.getD_eq_getElem?_getD,
          List.getElem?_map, hcell]
        simp
    constructor
    · intro hw
      rw [hget, if_pos hw]
    · intro hw
      rw [hget, if_neg (by simpa [List.getD_eq_getElem?_getD] using hw)]

/-- C8 witness: the amended statement at the concrete line `E1EDK01 VAL-1`,
showing the blanked output, preserved length and the surviving hyphen. -/
theorem C8_witness :
    idocLine "E1EDK01" "remove" "E1EDK01 VAL-1" = blankWordRuns "E1EDK01 VAL-1"
    ∧ (idocLine "E1EDK01" "remove" "E1EDK01 VAL-1").data.length =
        ("E1EDK01 VAL-1" : String).data.length
    ∧ ((isWordChar (("E1EDK01 VAL-1" : String).data.getD 11 ' ') = false →
        (idocLine "E1EDK01" "remove" "E1EDK01 VAL-1").data.getD 11 ' ' =
          ("E1EDK01 VAL-1" : String).data.getD 11 ' ')) := by
  have h := C8_idoc_remove "E1EDK01 VAL-1" "E1EDK01" (Or.inl (by decide)) (by decide)
  exact ⟨h.1, h.2.1, (h.2.2.1 11 (by decide)).2⟩

theorem countChar_joinChar (c : Char) (ps : List String) (hne : ps ≠ [])
    (hfree : ∀ t ∈ ps, containsChar t c = false) :
    countChar (joinChar c ps) c = ps.length - 1 := by
  unfold countChar
  rw [data_joinChar]
  rw [count_listJoinChar c (ps.map String.data) (by simpa)
    (by
      intro p hp
      rcases List.mem_map.mp hp with ⟨t, ht, rfl⟩
      exact (containsChar_false_iff t c).mp (hfree t ht))]
  simp

/-- C5 (confirmed): EDI-X12 CommentOut of `ISA06`.  For a segment line whose
`*`-split starts with `ISA`, contains the EDI terminator and has `SENDER` as
its element at split position 6, comment mode replaces exactly that element by
`commented-SENDER`: the split of the result is the original element list with
position 6 replaced, every other element is unchanged, and the number of `*`
separators in the line is preserved. -/
theorem C5_edi_isa06_comment (line : String) (es : List String)
    (hsplit : splitChar '*' line = es)
    (hhead : es.headD "" = "ISA")
    (hlen : 6 < es.length)
    (hsender : es[6]? = some "SENDER")
    (hne : ¬ pyStrip line = "")
    (htil : containsChar line '~' = true) :
    splitChar '*' (ediLine "ISA06" "comment" line) = es.set 6 "commented-SENDER"
    ∧ (∀ j, j ≠ 6 → (splitChar '*' (ediLine "ISA06" "comment" line))[j]? = es[j]?)
    ∧ countChar (ediLine "ISA06" "comment" line) '*' = countChar line '*' := by
  have hstart : startsWithStr "ISA06" (es.headD "") = true := by
    rw [hhead]
    decide
  have heval := ediLine_eval "ISA06" "comment" line es hsplit hne htil hstart
  rw [hhead] at heval
  have hnums : ediNums (fieldPartOf "ISA06" "ISA") = some (6, none) := by decide
  simp only [hnums] at heval
  have hlt : ((6 : Int) < (es.length : Int)) := by exact_mod_cast hlen
  rw [if_pos hlt] at heval
  have h6 : pyIdx es (6 : Int) = es[6]? := by
    have h := pyIdx_nat es 6 hlen
    exact_mod_cast h
  have h6s : pySetIdx es (6 : Int) ("commented-" ++ "SENDER") =
      some (es.set 6 ("commented-" ++ "SENDER")) := by
    have h := pySetIdx_nat es 6 ("commented-" ++ "SENDER") hlen
    exact_mod_cast h
  have happ : ediApply es 6 none "comment" = some (es.set 6 "commented-SENDER") := by
    show (match pyIdx es (6 : Int) with
          | none => none
          | some old => pySetIdx es (6 : Int) ("commented-" ++ old)) =
        some (es.set 6 "commented-SENDER")
    simp only [h6, hsender]
    rw [h6s]
    rfl
  simp only [happ] at heval
  have hfree : ∀ t ∈ es.set 6 "commented-SENDER", containsChar t '*' = false := by
    intro t ht
    rcases List.mem_or_eq_of_mem_set ht with h | h
    · exact mem_splitChar_no_sep '*' line t (hsplit ▸ h)
    · rw [h]
      decide
  have hsetne : es.set 6 "commented-SENDER" ≠ [] := by
    intro h
    have hl := congrArg List.length h
    rw [List.length_set] at hl
    simp only [List.length_nil] at hl
    omega
  have hsplit2 : splitChar '*' (ediLine "ISA06" "comment" line) =
      es.set 6 "commented-SENDER" := by
    rw [heval]
    exact splitChar_joinChar '*' _ hsetne hfree
  refine ⟨hsplit2, ?_, ?_⟩
  · intro j hj
    rw [hsplit2]
    exact List.getElem?_set_ne (by omega)
  · rw [heval]
    have hfree0 : ∀ t ∈ es, containsChar t '*' = false := by
      intro t ht
      exact mem_splitChar_no_sep '*' line t (hsplit ▸ ht)
    have hne0 : es ≠ [] := by
      intro h
      rw [h] at hlen
      simp at hlen
    rw [countChar_joinChar '*' _ hsetne hfree]
    rw [show line = joinChar '*' es by rw [← hsplit, joinChar_splitChar]]
    rw [countChar_joinChar '*' es hne0 hfree0]
    simp

/-- C5 witness: the scenario at the concrete line
`ISA*00*A*00*B*ZZ*SENDER*ZZ~`. -/
theorem C5_witness :
    splitChar '*' (ediLine "ISA06" "comment" "ISA*00*A*00*B*ZZ*SENDER*ZZ~") =
      (["ISA", "00", "A", "00", "B", "ZZ", "SENDER", "ZZ~"].set 6 "commented-SENDER")
    ∧ countChar (ediLine "ISA06" "comment" "ISA*00*A*00*B*ZZ*SENDER*ZZ~") '*' =
      countChar "ISA*00*A*00*B*ZZ*SENDER*ZZ~" '*' := by
  have h := C5_edi_isa06_comment "ISA*00*A*00*B*ZZ*SENDER*ZZ~"
    ["ISA", "00", "A", "00", "B", "ZZ", "SENDER", "ZZ~"]
    rfl rfl (by decide) (by decide) (by decide) (by decide)
  exact ⟨h.1, h.2.2⟩

/-! ### Terminal-step lemmas for the tree mutator -/

theorem navAM_terminal_remove (kvs : List (String × JValue)) (k : String) (v : JValue)
    (hbr : (containsChar k '[' && containsChar k ']') = false)
    (hget : dictGet? kvs k = some v) :
    navAM (.obj kvs) [k] "remove" = some (.obj (dictDel kvs k), true) := by
  unfold navAM
  rw [navAMF.eq_def]
  simp only [hbr, Bool.false_eq_true, if_false]
  rw [navPlainF.eq_def]
  simp [hget]

theorem navAM_terminal_comment (kvs : List (String × JValue)) (k : String) (v : JValue)
    (hbr : (containsChar k '[' && containsChar k ']') = false)
    (hget : dictGet? kvs k = some v) :
    navAM (.obj kvs) [k] "comment" =
      some (.obj (dictSet (dictDel kvs k) ("commented-" ++ k) v), true) := by
  unfold navAM
  rw [navAMF.eq_def]
  simp only [hbr, Bool.false_eq_true, if_false]
  rw [navPlainF.eq_def]
  simp [hget]

theorem containsChar_append (a b : String) (c : Char) :
    containsChar (a ++ b) c = (containsChar a c || containsChar b c) := by
  unfold containsChar
  rw [String.data_append]
  simp

theorem pyDrop_marker (k : String) : pyDrop ("commented-" ++ k) 10 = k := by
  apply stringExt
  unfold pyDrop
  rw [String.data_append]
  rw [show (10 : Nat) = ("commented-" : String).data.length from by decide]
  rw [List.drop_left]

theorem ediLine_isa06 (mode line : String) (es : List String)
    (hsplit : splitChar '*' line = es)
    (hhead : es.headD "" = "ISA")
    (hlen : 6 < es.length)
    (hne : ¬ pyStrip line = "")
    (htil : containsChar line '~' = true) :
    ediLine "ISA06" mode line =
      match ediApply es 6 none mode with
      | none => line
      | some es2 => joinChar '*' es2 := by
  have hstart : startsWithStr "ISA06" (es.headD "") = true := by
    rw [hhead]
    decide
  have heval := ediLine_eval "ISA06" mode line es hsplit hne htil hstart
  rw [hhead] at heval
  have hnums : ediNums (fieldPartOf "ISA06" "ISA") = some (6, none) := by decide
  simp only [hnums] at heval
  have hlt : ((6 : Int) < (es.length : Int)) := by exact_mod_cast hlen
  rw [if_pos hlt] at heval
  exact heval

theorem ediApply_comment6 (es : List String) (v : String)
    (hlen : 6 < es.length) (hv : es[6]? = some v) :
    ediApply es 6 none "comment" = some (es.set 6 ("commented-" ++ v)) := by
  have h6 : pyIdx es (6 : Int) = es[6]? := by
    exact_mod_cast pyIdx_nat es 6 hlen
  have h6s : pySetIdx es (6 : Int) ("commented-" ++ v) =
      some (es.set 6 ("commented-" ++ v)) := by
    exact_mod_cast pySetIdx_nat es 6 ("commented-" ++ v) hlen
  show (match pyIdx es (6 : Int) with
        | none => none
        | some old => pySetIdx es (6 : Int) ("commented-" ++ old)) =
      some (es.set 6 ("commented-" ++ v))
  simp only [h6, hv]
  exact h6s

theorem ediApply_remove6 (es : List String) (hlen : 6 < es.length) :
    ediApply es 6 none "remove" = some (es.set 6 "") := by
  show pySetIdx es (6 : Int) "" = some (es.set 6 "")
  exact_mod_cast pySetIdx_nat es 6 "" hlen

theorem mem_of_getQ {α : Type} : ∀ (xs : List α) (n : Nat) (v : α),
    xs[n]? = some v → v ∈ xs := by
  intro xs
  induction xs with
  | nil => intro n v h; simp at h
  | cons x tl ih =>
    intro n v h
    cases n with
    | zero => simp at h; simp [h]
    | succ m =>
      simp at h
      exact List.mem_cons_of_mem x (ih m v h)

theorem fmk_terminal_remove (kvs : List (String × JValue)) (k : String) (v : JValue)
    (hget : dictGet? kvs k = some v) :
    find_and_modify_keys (.obj kvs) k "remove" = (.obj (dictDel kvs k), true) := by
  unfold find_and_modify_keys
  rw [fmkF.eq_def]
  simp [dictMem, hget]

theorem fmk_terminal_comment (kvs : List (String × JValue)) (k : String) (v : JValue)
    (hget : dictGet? kvs k = some v) :
    find_and_modify_keys (.obj kvs) k "comment" =
      (.obj (dictSet (dictDel kvs k) ("commented-" ++ k) v), true) := by
  unfold find_and_modify_keys
  rw [fmkF.eq_def]
  simp [dictMem, hget]

theorem headD_set6 (es : List String) (v : String) (hlen : 6 < es.length) :
    (es.set 6 v).headD "" = es.headD "" := by
  cases es with
  | nil => simp at hlen
  | cons e tl => simp [List.set]

theorem ediLine_comment6_split (line : String) (es : List String) (v : String)
    (hsplit : splitChar '*' line = es)
    (hhead : es.headD "" = "ISA")
    (hlen : 6 < es.length)
    (hv : es[6]? = some v)
    (hne : ¬ pyStrip line = "")
    (htil : containsChar line '~' = true) :
    splitChar '*' (ediLine "ISA06" "comment" line) = es.set 6 ("commented-" ++ v) := by
  have heval := ediLine_isa06 "comment" line es hsplit hhead hlen hne htil
  rw [ediApply_comment6 es v hlen hv] at heval
  rw [heval]
  apply splitChar_joinChar
  · intro h
    have hl := congrArg List.length h
    rw [List.length_set] at hl
    simp only [List.length_nil] at hl
    omega
  · intro t ht
    rcases List.mem_or_eq_of_mem_set ht with h | h
    · exact mem_splitChar_no_sep '*' line t (hsplit ▸ h)
    · rw [h, containsChar_append]
      have hvmem : v ∈ es := mem_of_getQ es 6 v hv
      rw [mem_splitChar_no_sep '*' line v (hsplit ▸ hvmem)]
      decide

/-- C6 (confirmed): mode symmetry.  Tree-of-maps: CommentOut at a present
mapping key renames it to `commented-<key>` keeping its value, and dropping
the ten marker characters recovers the original key, while Remove deletes the
entry so that documents differing only in the removed value map to the same
mutated document (the value is irrecoverable).  EDI-X12 (`ISA06`): CommentOut
prefixes the element value with the marker, recoverable by dropping it, while
Remove blanks the element to the empty string, giving identical outputs for
any two original values. -/
theorem C6_mode_symmetry :
    (∀ (kvs : List (String × JValue)) (k : String) (v : JValue),
      (containsChar k '[' && containsChar k ']') = false →
      dictGet? kvs k = some v →
      navAM (.obj kvs) [k] "comment" =
        some (.obj (dictSet (dictDel kvs k) ("commented-" ++ k) v), true)
      ∧ dictGet? (dictSet (dictDel kvs k) ("commented-" ++ k) v) ("commented-" ++ k) =
          some v
      ∧ pyDrop ("commented-" ++ k) 10 = k)
    ∧ (∀ (l₁ l₂ : List (String × JValue)) (k : String) (v₁ v₂ : JValue),
      (containsChar k '[' && containsChar k ']') = false →
      k ∉ l₁.map Prod.fst →
      navAM (.obj (l₁ ++ (k, v₁) :: l₂)) [k] "remove" = some (.obj (l₁ ++ l₂), true)
      ∧ navAM (.obj (l₁ ++ (k, v₂) :: l₂)) [k] "remove" = some (.obj (l₁ ++ l₂), true))
    ∧ (∀ (line : String) (es : List String) (v : String),
      splitChar '*' line = es → es.headD "" = "ISA" → 6 < es.length →
      es[6]? = some v → ¬ pyStrip line = "" → containsChar line '~' = true →
      splitChar '*' (ediLine "ISA06" "comment" line) = es.set 6 ("commented-" ++ v)
      ∧ pyDrop ("commented-" ++ v) 10 = v)
    ∧ (∀ (es : List String) (v₁ v₂ : String),
      es.headD "" = "ISA" → 6 < es.length →
      (∀ t ∈ es, containsChar t '*' = false) →
      containsChar v₁ '*' = false → containsChar v₂ '*' = false →
      ¬ pyStrip (joinChar '*' (es.set 6 v₁)) = "" →
      ¬ pyStrip (joinChar '*' (es.set 6 v₂)) = "" →
      containsChar (joinChar '*' (es.set 6 v₁)) '~' = true →
      containsChar (joinChar '*' (es.set 6 v₂)) '~' = true →
      ediLine "ISA06" "remove" (joinChar '*' (es.set 6 v₁)) =
        ediLine "ISA06" "remove" (joinChar '*' (es.set 6 v₂))) := by
  refine ⟨?_, ?_, ?_, ?_⟩
  · intro kvs k v hbr hget
    exact ⟨navAM_terminal_comment kvs k v hbr hget,
      dictGet?_dictSet_self _ _ _, pyDrop_marker k⟩
  · intro l₁ l₂ k v₁ v₂ hbr hnot
    constructor
    · rw [navAM_terminal_remove (l₁ ++ (k, v₁) :: l₂) k v₁ hbr
        (dictGet?_append_cons l₁ l₂ k v₁ hnot)]
      rw [dictDel_append_cons l₁ l₂ k v₁ hnot]
    · rw [navAM_terminal_remove (l₁ ++ (k, v₂) :: l₂) k v₂ hbr
        (dictGet?_append_cons l₁ l₂ k v₂ hnot)]
      rw [dictDel_append_cons l₁ l₂ k v₂ hnot]
  · intro line es v hsplit hhead hlen hv hne htil
    exact ⟨ediLine_comment6_split line es v hsplit hhead hlen hv hne htil,
      pyDrop_marker v⟩
  · intro es v₁ v₂ hhead hlen hfree hf1 hf2 hne1 hne2 ht1 ht2
    have hfree1 : ∀ t ∈ es.set 6 v₁, containsChar t '*' = false := by
      intro t ht
      rcases List.mem_or_eq_of_mem_set ht with h | h
      · exact hfree t h
      · rw [h]; exact hf1
    have hfree2 : ∀ t ∈ es.set 6 v₂, containsChar t '*' = false := by
      intro t ht
      rcases List.mem_or_eq_of_mem_set ht with h | h
      · exact hfree t h
      · rw [h]; exact hf2
    have hsne1 : es.set 6 v₁ ≠ [] := by
      intro h
      have hl := congrArg List.length h
      rw [List.length_set] at hl
      simp only [List.length_nil] at hl
      omega
    have hsne2 : es.set 6 v₂ ≠ [] := by
      intro h
      have hl := congrArg List.length h
      rw [List.length_set] at hl
      simp only [List.length_nil] at hl
      omega
    have hsplit1 : splitChar '*' (joinChar '*' (es.set 6 v₁)) = es.set 6 v₁ :=
      splitChar_joinChar '*' _ hsne1 hfree1
    have hsplit2 : splitChar '*' (joinChar '*' (es.set 6 v₂)) = es.set 6 v₂ :=
      splitChar_joinChar '*' _ hsne2 hfree2
    have hlen1 : 6 < (es.set 6 v₁).length := by rw [List.length_set]; exact hlen
    have hlen2 : 6 < (es.set 6 v₂).length := by rw [List.length_set]; exact hlen
    have he1 := ediLine_isa06 "remove" (joinChar '*' (es.set 6 v₁)) (es.set 6 v₁)
      hsplit1 (by rw [headD_set6 es v₁ hlen]; exact hhead) hlen1 hne1 ht1
    have he2 := ediLine_isa06 "remove" (joinChar '*' (es.set 6 v₂)) (es.set 6 v₂)
      hsplit2 (by rw [headD_set6 es v₂ hlen]; exact hhead) hlen2 hne2 ht2
    rw [ediApply_remove6 (es.set 6 v₁) hlen1] at he1
    rw [ediApply_remove6 (es.set 6 v₂) hlen2] at he2
    rw [he1, he2, List.set_set, List.set_set]

theorem C6_witness :
    navAM (.obj [("a", .num 1)]) ["a"] "comment" =
      some (.obj [("commented-a", .num 1)], true)
    ∧ navAM (.obj [("a", .num 1), ("b", .num 2)]) ["a"] "remove" =
        some (.obj [("b", .num 2)], true)
    ∧ navAM (.obj [("a", .num 9), ("b", .num 2)]) ["a"] "remove" =
        some (.obj [("b", .num 2)], true)
    ∧ splitChar '*' (ediLine "ISA06" "comment" "ISA*A*B*C*D*E*F*G~") =
        ["ISA", "A", "B", "C", "D", "E", "commented-F", "G~"]
    ∧ ediLine "ISA06" "remove" "ISA*A*B*C*D*E*F*G~" =
        ediLine "ISA06" "remove" "ISA*A*B*C*D*E*X*G~" := by
  refine ⟨?_, ?_, ?_, ?_, ?_⟩
  · exact (C6_mode_symmetry.1 [("a", JValue.num 1)] "a" (JValue.num 1)
      (by rfl) (by rfl)).1
  · exact (C6_mode_symmetry.2.1 [] [("b", JValue.num 2)] "a"
      (JValue.num 1) (JValue.num 9) (by rfl) (by simp)).1
  · exact (C6_mode_symmetry.2.1 [] [("b", JValue.num 2)] "a"
      (JValue.num 1) (JValue.num 9) (by rfl) (by simp)).2
  · exact (C6_mode_symmetry.2.2.1 "ISA*A*B*C*D*E*F*G~"
      ["ISA", "A", "B", "C", "D", "E", "F", "G~"] "F"
      (by rfl) (by rfl) (by decide) (by rfl) (by decide) (by rfl)).1
  · exact C6_mode_symmetry.2.2.2 ["ISA", "A", "B", "C", "D", "E", "", "G~"]
      "F" "X" (by rfl) (by decide) (by decide) (by rfl) (by rfl)
      (by decide) (by decide) (by rfl) (by rfl)

theorem dictSet_not_mem {α : Type} :
    ∀ (l : List (String × α)) (k : String) (v : α),
    k ∉ l.map Prod.fst → dictSet l k v = l ++ [(k, v)] := by
  intro l
  induction l with
  | nil => intro k v _; rfl
  | cons p t ih =>
    intro k v hk
    obtain ⟨k0, w0⟩ := p
    simp only [List.map_cons, List.mem_cons] at hk
    push_neg at hk
    have hne : k0 ≠ k := Ne.symm hk.1
    simp only [dictSet, if_neg hne, List.cons_append]
    rw [ih k v hk.2]

/-- C10 counterexample: when a key `commented-a` already exists in the mapping,
CommentOut on `a` does not append a new last entry; it overwrites the existing
`commented-a` entry in place (Python dict assignment keeps the position of an
existing key), destroying its previous value. -/
theorem C10_counterexample :
    navAM (.obj [("commented-a", .num 1), ("a", .num 2), ("b", .num 3)])
        ["a"] "comment" =
      some (.obj [("commented-a", .num 2), ("b", .num 3)], true)
    ∧ find_and_modify_keys
        (.obj [("commented-a", .num 1), ("a", .num 2), ("b", .num 3)])
        "a" "comment" =
      (.obj [("commented-a", .num 2), ("b", .num 3)], true) := by
  constructor
  · simp [navAM, navAMF, navPlainF, jsize, jsizeKvs, containsChar,
      dictGet?, dictDel, dictSet]
  · simp [find_and_modify_keys, fmkF, jsize, jsizeKvs, dictMem,
      dictGet?, dictDel, dictSet]

/-- C10 (corrected): in the tree-of-maps family, CommentOut on a mapping key
whose marker key `commented-<key>` is not already present removes the original
entry and appends `commented-<key>` with the original value as the last entry,
all other entries keeping value and relative order; this holds for both the
unified mutator (`navigate_and_modify`) and the legacy mutator
(`find_and_modify_keys`).  (If `commented-<key>` is already present, the
existing entry is overwritten in place instead — see the counterexample.) -/
theorem C10_comment_last_entry :
    (∀ (l₁ l₂ : List (String × JValue)) (k : String) (v : JValue),
      (containsChar k '[' && containsChar k ']') = false →
      k ∉ l₁.map Prod.fst →
      ("commented-" ++ k) ∉ (l₁ ++ l₂).map Prod.fst →
      navAM (.obj (l₁ ++ (k, v) :: l₂)) [k] "comment" =
        some (.obj ((l₁ ++ l₂) ++ [("commented-" ++ k, v)]), true))
    ∧ (∀ (l₁ l₂ : List (String × JValue)) (k : String) (v : JValue),
      k ∉ l₁.map Prod.fst →
      ("commented-" ++ k) ∉ (l₁ ++ l₂).map Prod.fst →
      find_and_modify_keys (.obj (l₁ ++ (k, v) :: l₂)) k "comment" =
        (.obj ((l₁ ++ l₂) ++ [("commented-" ++ k, v)]), true)) := by
  constructor
  · intro l₁ l₂ k v hbr hk hck
    rw [navAM_terminal_comment (l₁ ++ (k, v) :: l₂) k v hbr
      (dictGet?_append_cons l₁ l₂ k v hk)]
    rw [dictDel_append_cons l₁ l₂ k v hk]
    rw [dictSet_not_mem (l₁ ++ l₂) ("commented-" ++ k) v hck]
  · intro l₁ l₂ k v hk hck
    rw [fmk_terminal_comment (l₁ ++ (k, v) :: l₂) k v
      (dictGet?_append_cons l₁ l₂ k v hk)]
    rw [dictDel_append_cons l₁ l₂ k v hk]
    rw [dictSet_not_mem (l₁ ++ l₂) ("commented-" ++ k) v hck]

theorem C10_witness :
    navAM (.obj [("x", .num 0), ("a", .num 2), ("y", .num 3)]) ["a"] "comment" =
      some (.obj [("x", .num 0), ("y", .num 3), ("commented-a", .num 2)], true)
    ∧ find_and_modify_keys
        (.obj [("x", .num 0), ("a", .num 2), ("y", .num 3)]) "a" "comment" =
      (.obj [("x", .num 0), ("y", .num 3), ("commented-a", .num 2)], true) :=
  ⟨C10_comment_last_entry.1 [("x", JValue.num 0)] [("y", JValue.num 3)]
      "a" (JValue.num 2) (by rfl) (by decide) (by decide),
   C10_comment_last_entry.2 [("x", JValue.num 0)] [("y", JValue.num 3)]
      "a" (JValue.num 2) (by decide) (by decide)⟩

/-- C9 counterexample: (1) the EDI strategy does not skip a malformed numeric
suffix — `int(field_part[:2])` parses the first two characters of `06abc`, so
path `ISA06abc` in remove mode blanks element 6; (2) the tree strategy raises
an uncaught `IndexError` (modelled as `none`) when a bracketed path holds a
negative index out of range of the addressed array: `pop(-1)` on an empty
list is outside the caught `(ValueError, KeyError)`. -/
theorem C9_counterexample :
    process_edi_field_removal "ISA*A*B*C*D*E*F*G~" "ISA06abc" "remove" =
      "ISA*A*B*C*D*E**G~"
    ∧ process_json_field_removal (.obj [("a", .arr [])]) "a[-1]" "remove" =
      none := by
  constructor
  · rfl
  · simp +decide [process_json_field_removal, pyStrip, isPySpace, replaceSub,
      replaceSubAux, pyStripChar, splitChar, splitCharAux, navAM, navAMF,
      navBracketF, jsize, jsizeKvs, jsizeList, containsChar, parseIdxPart,
      pyInt, digitsToNat, dictGet?, bracketKeyOf, pyPopIdx]

/-- C9 (corrected): skip behaviour of the format strategies.  Tree-of-maps:
a missing mapping key, an unparsable bracket index and a non-negative
out-of-range array index all report `changed=false` without modifying the
document (but a negative out-of-range index raises, and a two-leading-digit
malformed suffix parses and mutates in EDI — see the counterexample).
EDI-X12 and EDIFACT: a line whose element-number parse fails, or whose parsed
element number is at least the element count, is left unchanged.  XML: a
document that fails to parse, or whose tree has no element with the target
tag, is returned unchanged. -/
theorem C9_skip_behaviour :
    (∀ (kvs : List (String × JValue)) (ck : String) (rest : List String)
        (mode : String),
      (containsChar ck '[' && containsChar ck ']') = false →
      dictGet? kvs ck = none →
      navAM (.obj kvs) (ck :: rest) mode = some (.obj kvs, false))
    ∧ (∀ (obj : JValue) (ck : String) (rest : List String) (mode : String),
      (containsChar ck '[' && containsChar ck ']') = true →
      parseIdxPart ck = none →
      navAM obj (ck :: rest) mode = some (obj, false))
    ∧ (∀ (kvs : List (String × JValue)) (ck : String) (rest : List String)
        (mode : String) (index : Int) (xs : List JValue),
      (containsChar ck '[' && containsChar ck ']') = true →
      parseIdxPart ck = some index →
      dictGet? kvs (bracketKeyOf ck) = some (.arr xs) →
      ¬ index < (xs.length : Int) →
      navAM (.obj kvs) (ck :: rest) mode = some (.obj kvs, false))
    ∧ (∀ (fp mode line : String),
      ediNums (fieldPartOf fp ((splitChar '*' line).headD "")) = none →
      ediLine fp mode line = line)
    ∧ (∀ (fp mode line : String) (en : Int) (sn? : Option Int),
      ediNums (fieldPartOf fp ((splitChar '*' line).headD "")) = some (en, sn?) →
      ¬ en < (((splitChar '*' line).length : Int)) →
      ediLine fp mode line = line)
    ∧ (∀ (fp mode line : String),
      (if pyIsDigit (fieldPartOf fp ((splitChar '+' line).headD ""))
       then pyInt (fieldPartOf fp ((splitChar '+' line).headD ""))
       else pyInt (pyTake (fieldPartOf fp ((splitChar '+' line).headD "")) 2))
        = none →
      edifactLine fp mode line = line)
    ∧ (∀ (fp mode line : String) (en : Int),
      (if pyIsDigit (fieldPartOf fp ((splitChar '+' line).headD ""))
       then pyInt (fieldPartOf fp ((splitChar '+' line).headD ""))
       else pyInt (pyTake (fieldPartOf fp ((splitChar '+' line).headD "")) 2))
        = some en →
      ¬ en < (((splitChar '+' line).length : Int)) →
      edifactLine fp mode line = line)
    ∧ (∀ (content fp mode : String),
      process_xml_field_removal none content fp mode = content)
    ∧ (∀ (t : String) (txt : Option String) (cs : List XItem)
        (content fp mode : String),
      countTagList ((splitChar '/' fp).getLastD "") cs = 0 →
      process_xml_field_removal (some (.el t txt cs)) content fp mode = content) := by
  refine ⟨?_, ?_, ?_, ?_, ?_, ?_, ?_, ?_, ?_⟩
  · intro kvs ck rest mode hbr hget
    unfold navAM
    rw [navAMF.eq_def]
    simp only [hbr, Bool.false_eq_true, if_false]
    rw [navPlainF.eq_def]
    cases rest with
    | nil => simp [hget]
    | cons r rs => simp [hget]
  · intro obj ck rest mode hbr hp
    unfold navAM
    rw [navAMF.eq_def]
    simp [hbr, navBracketF, hp]
  · intro kvs ck rest mode index xs hbr hp hget hlt
    unfold navAM
    rw [navAMF.eq_def]
    simp [hbr, navBracketF, hp, hget, hlt]
  · intro fp mode line h
    by_cases h1 : pyStrip line = ""
    · simp [ediLine, h1]
    · by_cases h2 : containsChar line '~' = true
      · simp only [List.headD_eq_head?] at h
        simp [ediLine, h1, h2, h]
      · simp [ediLine, h1, h2]
  · intro fp mode line en sn? h hlt
    by_cases h1 : pyStrip line = ""
    · simp [ediLine, h1]
    · by_cases h2 : containsChar line '~' = true
      · simp only [List.headD_eq_head?] at h
        simp [ediLine, h1, h2, h, hlt, joinChar_splitChar]
      · simp [ediLine, h1, h2]
  · intro fp mode line h
    by_cases h1 : pyStrip line = ""
    · simp [edifactLine, h1]
    · by_cases h2 : containsChar line '+' = true
      · simp only [List.headD_eq_head?] at h
        simp [edifactLine, h1, h2, h]
      · simp [edifactLine, h1, h2]
  · intro fp mode line en h hlt
    by_cases h1 : pyStrip line = ""
    · simp [edifactLine, h1]
    · by_cases h2 : containsChar line '+' = true
      · simp only [List.headD_eq_head?] at h
        simp [edifactLine, h1, h2, h, hlt, joinChar_splitChar]
      · simp [edifactLine, h1, h2]
  · intro content fp mode
    rfl
  · intro t txt cs content fp mode h0
    simp only [List.getLastD_eq_getLast?] at h0
    simp [process_xml_field_removal, h0, xmlSteps]

theorem C9_witness :
    navAM (.obj [("a", .num 1)]) ["zz"] "remove" =
      some (.obj [("a", .num 1)], false)
    ∧ navAM (.obj [("a", .num 1)]) ["a[x]"] "remove" =
      some (.obj [("a", .num 1)], false)
    ∧ navAM (.obj [("a", .arr [.num 5])]) ["a[3]"] "remove" =
      some (.obj [("a", .arr [.num 5])], false)
    ∧ ediLine "QQQ" "remove" "ISA*A~" = "ISA*A~"
    ∧ ediLine "ISA09" "remove" "ISA*A~" = "ISA*A~"
    ∧ edifactLine "QQQ" "remove" "UNB+A" = "UNB+A"
    ∧ edifactLine "UNB9" "remove" "UNB+A" = "UNB+A"
    ∧ process_xml_field_removal none "<a></a>" "b" "remove" = "<a></a>"
    ∧ process_xml_field_removal (some (.el "r" none [])) "<r></r>" "b" "remove" =
      "<r></r>" :=
  ⟨C9_skip_behaviour.1 [("a", JValue.num 1)] "zz" [] "remove"
      (by rfl) (by rfl),
   C9_skip_behaviour.2.1 (JValue.obj [("a", JValue.num 1)]) "a[x]" [] "remove"
      (by rfl) (by rfl),
   C9_skip_behaviour.2.2.1 [("a", JValue.arr [JValue.num 5])] "a[3]" []
      "remove" 3 [JValue.num 5] (by rfl) (by rfl) (by rfl) (by decide),
   C9_skip_behaviour.2.2.2.1 "QQQ" "remove" "ISA*A~" (by rfl),
   C9_skip_behaviour.2.2.2.2.1 "ISA09" "remove" "ISA*A~" 9 none (by rfl)
      (by decide),
   C9_skip_behaviour.2.2.2.2.2.1 "QQQ" "remove" "UNB+A" (by rfl),
   C9_skip_behaviour.2.2.2.2.2.2.1 "UNB9" "remove" "UNB+A" 9 (by rfl)
      (by decide),
   C9_skip_behaviour.2.2.2.2.2.2.2.1 "<a></a>" "b" "remove",
   C9_skip_behaviour.2.2.2.2.2.2.2.2 "r" none [] "<r></r>" "b" "remove"
      (by simp [countTagList])⟩

/-- C2 counterexample: the unified generator writes a fixture for an EDI-X12
field even though the mutation left the sample text completely unchanged (the
field `ZZZ9` matches no segment): only the JSON branch of
`generate_test_files` checks the mutation outcome. -/
theorem C2_counterexample :
    generate_test_files "required"
        [("ZZZ9", .obj [("Source Occurs", .str "1...1")])]
        "EDI-X12" JValue.null "ISA*A~" (fun _ => none) "comment" "P_" "edi" =
      [("P_ZZZ9_001.edi", .text "ISA*A~")]
    ∧ process_edi_field_removal "ISA*A~" "ZZZ9" "comment" = "ISA*A~" := by
  constructor
  · rfl
  · rfl

/-- C2 (corrected): skip-on-unchanged holds only partially.  (1) The JSON
branch of the unified generator produces no file for a field whose mutation
reports `changed=false`; (2) the generator's produced contents are exactly the
per-field `genStep` outcomes, so a skipped field contributes nothing;
(3) the legacy required run writes no `MissRE-<key>` file and records no
manifest entry for a key whose mutation reports found=false; but (4) the
EDI-X12 branch (likewise XML/EDIFACT/IDOC) produces a file unconditionally,
with no `changed` check at all — see the counterexample. -/
theorem C2_skip_on_unchanged :
    (∀ (f : SpecField) (mJ : JValue) (mT : String) (xp : String → Option XItem)
        (mode fp : String) (d : JValue),
      jsonFieldPath f.pathJ f.outputElementJ = some fp →
      process_json_field_removal mJ fp mode = some (d, false) →
      genStep "JSON" mJ mT xp mode f = none)
    ∧ (∀ (test : String) (spec : List (String × JValue)) (ff : String)
        (mJ : JValue) (mT : String) (xp : String → Option XItem)
        (mode pfx ext : String) (fields : List SpecField),
      find_fields_by_occurrence spec (targetOccurrenceOf test) = some fields →
      (generate_test_files test spec ff mJ mT xp mode pfx ext).map Prod.snd =
        fields.filterMap (genStep ff mJ mT xp mode))
    ∧ (∀ (pfx : String) (spec : List (String × JValue)) (max : JValue)
        (mode k : String),
      (find_and_modify_keys (deepCopy max) k mode).2 = false →
      (∀ file ∈ (runRequired pfx spec max mode).files,
        file.1 ≠ reqFileName pfx k)
      ∧ k ∉ (runRequired pfx spec max mode).modifiedKeys
      ∧ (∀ manifest, runRequiredManifest pfx spec max mode = some manifest →
          k ∉ manifest))
    ∧ (∀ (f : SpecField) (mJ : JValue) (mT : String) (xp : String → Option XItem)
        (mode : String),
      genStep "EDI-X12" mJ mT xp mode f =
        some (.text (process_edi_field_removal mT f.element mode))) := by
  refine ⟨?_, ?_, ?_, ?_⟩
  · intro f mJ mT xp mode fp d h1 h2
    simp [genStep, h1, h2]
  · intro test spec ff mJ mT xp mode pfx ext fields hf
    unfold generate_test_files
    simp only [hf]
    exact genLoop_map_snd ff mJ mT xp mode pfx ext fields 1
  · intro pfx spec max mode k hch
    have hkey : ∀ e ∈ spec, ∀ v, reqModKeyFor mode max e = some v → v ≠ k := by
      intro e hmem v he hvk
      rcases e with ⟨k0, dv⟩
      cases dv with
      | obj dkvs =>
        by_cases hocc : requiredOccursB dkvs
        · rcases hfmk : find_and_modify_keys (deepCopy max) k0 mode with ⟨m2, b⟩
          cases b
          · simp [reqModKeyFor, hocc, hfmk] at he
          · simp [reqModKeyFor, hocc, hfmk] at he
            rw [he, hvk] at hfmk
            rw [hfmk] at hch
            simp at hch
        · simp [reqModKeyFor, hocc] at he
      | null => simp [reqModKeyFor] at he
      | bool b => simp [reqModKeyFor] at he
      | num n => simp [reqModKeyFor] at he
      | str t => simp [reqModKeyFor] at he
      | arr xs => simp [reqModKeyFor] at he
    have hnk : k ∉ (runRequired pfx spec max mode).modifiedKeys := by
      rw [runRequired_modifiedKeys]
      intro hmemk
      obtain ⟨e, hmem, he⟩ := List.mem_filterMap.mp hmemk
      exact hkey e hmem k he rfl
    refine ⟨?_, hnk, ?_⟩
    · intro file hfile heq
      rw [runRequired_files] at hfile
      obtain ⟨e, hmem, he⟩ := List.mem_filterMap.mp hfile
      rcases e with ⟨k0, dv⟩
      cases dv with
      | obj dkvs =>
        by_cases hocc : requiredOccursB dkvs
        · rcases hfmk : find_and_modify_keys (deepCopy max) k0 mode with ⟨m2, b⟩
          cases b
          · simp [reqFileFor, hocc, hfmk] at he
          · simp [reqFileFor, hocc, hfmk] at he
            rw [← he] at heq
            simp only [] at heq
            have h0 : k0 = k := reqFileName_inj heq
            rw [h0] at hfmk
            rw [hfmk] at hch
            simp at hch
        · simp [reqFileFor, hocc] at he
      | null => simp [reqFileFor] at he
      | bool b => simp [reqFileFor] at he
      | num n => simp [reqFileFor] at he
      | str t => simp [reqFileFor] at he
      | arr xs => simp [reqFileFor] at he
    · intro manifest hman
      unfold runRequiredManifest at hman
      by_cases hfound : (runRequired pfx spec max mode).found
      · simp only [hfound, if_true] at hman
        intro hmk
        exact hnk (by rw [Option.some.inj hman]; exact hmk)
      · simp only [hfound, if_false] at hman
        exact Option.noConfusion hman
  · intro f mJ mT xp mode
    rfl

theorem C2_witness :
    genStep "JSON" (JValue.obj []) "" (fun _ => none) "remove"
      ⟨"a", JValue.str "a", JValue.str "", []⟩ = none
    ∧ (generate_test_files "required" [] "JSON" JValue.null ""
        (fun _ => none) "remove" "P_" "json").map Prod.snd =
      ([] : List SpecField).filterMap
        (genStep "JSON" JValue.null "" (fun _ => none) "remove")
    ∧ "k" ∉ (runRequired "P_" [("k", .obj [("Source Occurs", .str "1...1")])]
        (JValue.str "x") "remove").modifiedKeys
    ∧ genStep "EDI-X12" JValue.null "ISA*A~" (fun _ => none) "comment"
        ⟨"ZZZ9", JValue.str "", JValue.str "", []⟩ =
      some (.text (process_edi_field_removal "ISA*A~" "ZZZ9" "comment")) :=
  ⟨C2_skip_on_unchanged.1 ⟨"a", JValue.str "a", JValue.str "", []⟩
      (JValue.obj []) "" (fun _ => none) "remove" "a" (JValue.obj [])
      (by simp +decide [jsonFieldPath, replaceSub, replaceSubAux, jTruthy])
      (by simp +decide [process_json_field_removal, pyStrip, isPySpace,
        replaceSub, replaceSubAux, pyStripChar, splitChar, splitCharAux,
        navAM, navAMF, navPlainF, jsize, jsizeKvs, containsChar, dictGet?]),
   C2_skip_on_unchanged.2.1 "required" [] "JSON" JValue.null ""
      (fun _ => none) "remove" "P_" "json" [] (by rfl),
   (C2_skip_on_unchanged.2.2.1 "P_"
      [("k", .obj [("Source Occurs", .str "1...1")])] (JValue.str "x")
      "remove" "k" (by rfl)).2.1,
   C2_skip_on_unchanged.2.2.2 ⟨"ZZZ9", JValue.str "", JValue.str "", []⟩
      JValue.null "ISA*A~" (fun _ => none) "comment"⟩

/-- C3 counterexample: fixture filenames of the unified generator carry the
1-based enumeration index, so dropping field `AAA1` renames the fixture of the
later field `ZZZ9` from `_002` to `_001` — the fixture (as a named file) is
not identical to what it would be if the other field were not processed, even
though its content is. -/
theorem C3_counterexample :
    generate_test_files "required"
        [("AAA1", .obj [("Source Occurs", .str "1...1")]),
         ("ZZZ9", .obj [("Source Occurs", .str "1...1")])]
        "EDI-X12" JValue.null "ISA*A~" (fun _ => none) "comment" "P_" "edi" =
      [("P_AAA1_001.edi", .text "ISA*A~"), ("P_ZZZ9_002.edi", .text "ISA*A~")]
    ∧ generate_test_files "required"
        [("ZZZ9", .obj [("Source Occurs", .str "1...1")])]
        "EDI-X12" JValue.null "ISA*A~" (fun _ => none) "comment" "P_" "edi" =
      [("P_ZZZ9_001.edi", .text "ISA*A~")] := by
  constructor
  · rfl
  · rfl

/-- C3 (corrected): isolation of per-field mutations.  The loaded maximal
sample is never changed by the legacy run (`maxData` is preserved); the files
of a legacy run over a concatenated spec are the concatenation of the files of
the runs over the parts, and removing one entry removes exactly its own
contribution (each fixture is a function of the pristine sample and its own
field alone); the unified generator's fixture contents likewise split
per-field.  Fixture *contents* are therefore contamination-free; unified
fixture *filenames*, however, renumber when a field is dropped (see the
counterexample), while legacy filenames, derived from the key, do not. -/
theorem C3_isolation :
    (∀ (pfx : String) (spec : List (String × JValue)) (max : JValue)
        (mode : String),
      (runRequired pfx spec max mode).maxData = max)
    ∧ (∀ (pfx : String) (l₁ l₂ : List (String × JValue)) (max : JValue)
        (mode : String),
      (runRequired pfx (l₁ ++ l₂) max mode).files =
        (runRequired pfx l₁ max mode).files ++
          (runRequired pfx l₂ max mode).files)
    ∧ (∀ (pfx : String) (l₁ : List (String × JValue)) (b : String × JValue)
        (l₂ : List (String × JValue)) (max : JValue) (mode : String),
      (runRequired pfx (l₁ ++ b :: l₂) max mode).files =
        (runRequired pfx l₁ max mode).files ++
          (reqFileFor pfx mode max b).toList ++
          (runRequired pfx l₂ max mode).files)
    ∧ (∀ (ff : String) (mJ : JValue) (mT : String) (xp : String → Option XItem)
        (mode pfx ext : String) (fs1 fs2 : List SpecField) (b : SpecField)
        (i j : Nat),
      (genLoop ff mJ mT xp mode pfx ext i (fs1 ++ b :: fs2)).map Prod.snd =
        fs1.filterMap (genStep ff mJ mT xp mode) ++
          (genStep ff mJ mT xp mode b).toList ++
          fs2.filterMap (genStep ff mJ mT xp mode)
      ∧ (genLoop ff mJ mT xp mode pfx ext j (fs1 ++ fs2)).map Prod.snd =
        fs1.filterMap (genStep ff mJ mT xp mode) ++
          fs2.filterMap (genStep ff mJ mT xp mode)) := by
  refine ⟨?_, ?_, ?_, ?_⟩
  · intro pfx spec max mode
    unfold runRequired
    rw [runRequiredFrom_eq]
    rfl
  · intro pfx l₁ l₂ max mode
    rw [runRequired_files, runRequired_files, runRequired_files,
      List.filterMap_append]
  · intro pfx l₁ b l₂ max mode
    rw [runRequired_files, runRequired_files, runRequired_files,
      List.filterMap_append]
    cases hb : reqFileFor pfx mode max b <;> simp [hb]
  · intro ff mJ mT xp mode pfx ext fs1 fs2 b i j
    constructor
    · rw [genLoop_map_snd, List.filterMap_append]
      cases hb : genStep ff mJ mT xp mode b <;> simp [hb]
    · rw [genLoop_map_snd, List.filterMap_append]
